import Mathlib

/-!
Verification development for the FairServe simulator: a shallow embedding of
the data model (models.py), the OIT throttle (oit.py), the engine
(vllm_engine.py), the fairness schedulers (scheduler.py) and the orchestrator
(simulator.py), with theorems settling the specification claims.

Python ints are modelled as ℤ, floats as ℚ (exact arithmetic stand-in),
strings as String.  Mutation is modelled by explicit state passing: a method
that mutates its object returns the updated value.  dict is modelled as an
association list with insertion-order keys (first occurrence) and a getD
default, matching CPython's ordered-dict and defaultdict behaviour.
-/

namespace FairServe

/-- Stage enumeration from models.py (values 0..3). -/
inductive InteractionStage
  | USER_PROMPT
  | AGENT_1
  | AGENT_2
  | FINAL
deriving DecidableEq, Repr

/-- Numeric value of a stage, as in the Python Enum. -/
def InteractionStage.value : InteractionStage → ℤ
  | .USER_PROMPT => 0
  | .AGENT_1 => 1
  | .AGENT_2 => 2
  | .FINAL => 3

/-- Python dict.get(k, default) over an integer-keyed dict. -/
def pyGet (d : List (ℤ × ℤ)) (k dflt : ℤ) : ℤ := ((d.lookup k).getD dflt)

/-- models.User. -/
structure User where
  user_id : String
  priority : ℚ := 1
deriving DecidableEq, Repr

/-- models.Application: per-stage expected token dicts and RPM limits. -/
structure Application where
  app_id : String
  expected_input_tokens : List (ℤ × ℤ)
  expected_system_tokens : List (ℤ × ℤ)
  expected_output_tokens : List (ℤ × ℤ)
  user_rpm_limit : ℤ := 120
  app_rpm_limit : ℤ := 2000
deriving DecidableEq, Repr

/-- Application.stage_weight: alpha*ni + beta*ns + gamma*no with dict
defaults 1, 0, 1 (Python defaults alpha=1, beta=2, gamma=1 at the binder). -/
def Application.stage_weight (app : Application) (stage : InteractionStage)
    (alpha : ℚ := 1) (beta : ℚ := 2) (gamma : ℚ := 1) : ℚ :=
  let idx := stage.value
  let ni := pyGet app.expected_input_tokens idx 1
  let ns := pyGet app.expected_system_tokens idx 0
  let no := pyGet app.expected_output_tokens idx 1
  alpha * (ni : ℚ) + beta * (ns : ℚ) + gamma * (no : ℚ)

/-- models.Request.  remaining_decode is initialised by the constructor
function mkRequest below, mirroring __post_init__. -/
structure Request where
  request_id : ℤ
  user : User
  application : Application
  interaction_id : ℤ
  stage : InteractionStage
  input_tokens : ℤ
  system_tokens : ℤ
  output_tokens_target : ℤ
  arrival_time : ℤ
  remaining_decode : ℤ
  start_time : Option ℚ := none
  completion_time : Option ℚ := none
  throttled : Bool := false
  stalled : Bool := false
deriving DecidableEq, Repr

/-- Request construction, with __post_init__ setting
remaining_decode := output_tokens_target. -/
def mkRequest (request_id : ℤ) (user : User) (application : Application)
    (interaction_id : ℤ) (stage : InteractionStage)
    (input_tokens system_tokens output_tokens_target arrival_time : ℤ) : Request :=
  { request_id, user, application, interaction_id, stage,
    input_tokens, system_tokens, output_tokens_target, arrival_time,
    remaining_decode := output_tokens_target }

/-- Request.done property. -/
def Request.done (r : Request) : Bool := r.remaining_decode ≤ 0

/-- models.Interaction. -/
structure Interaction where
  interaction_id : ℤ
  requests : List Request
  next_index : ℕ := 0
  complete : Bool := false
deriving DecidableEq, Repr

/-- Interaction.next_request: returns the next stage request (advancing the
cursor) or none (setting the complete flag), as in models.py. -/
def Interaction.next_request (i : Interaction) : Option Request × Interaction :=
  if i.complete ∨ i.requests.length ≤ i.next_index then
    (none, { i with complete := true })
  else
    (i.requests.get? i.next_index, { i with next_index := i.next_index + 1 })

/-- Interaction.mark_stage_complete. -/
def Interaction.mark_stage_complete (i : Interaction) : Interaction :=
  if i.requests.length ≤ i.next_index then { i with complete := true } else i

/-! ### OIT throttle (oit.py) -/

/-- A string-keyed window dict entry lookup with defaultdict(deque) default. -/
def windowOf (ws : List (String × List ℤ)) (k : String) : List ℤ :=
  ((ws.lookup k).getD [])

/-- Store a window under a key: replace in place, or append a new entry
(defaultdict inserts on first access). -/
def setWindow : List (String × List ℤ) → String → List ℤ → List (String × List ℤ)
  | [], k, v => [(k, v)]
  | (k', w) :: rest, k, v =>
    if k' = k then (k', v) :: rest else (k', w) :: setWindow rest k v

/-- OIT state (oit.py). -/
structure OIT where
  window : ℤ := 60
  kv_threshold : ℤ := 5000
  max_batch : ℤ := 32
  user_windows : List (String × List ℤ) := []
  app_windows : List (String × List ℤ) := []
  throttled : ℤ := 0
deriving DecidableEq, Repr

/-- OIT._evict: drop timestamps at the front that are ≤ now − window. -/
def OIT.evict (o : OIT) (dq : List ℤ) (now : ℤ) : List ℤ :=
  dq.dropWhile (fun t => t ≤ now - o.window)

/-- OIT.record_arrival: append the arrival time to both windows. -/
def OIT.record_arrival (o : OIT) (req : Request) : OIT :=
  { o with
    user_windows := setWindow o.user_windows req.user.user_id
      (windowOf o.user_windows req.user.user_id ++ [req.arrival_time]),
    app_windows := setWindow o.app_windows req.application.app_id
      (windowOf o.app_windows req.application.app_id ++ [req.arrival_time]) }

/-- OIT.is_overloaded. -/
def OIT.is_overloaded (o : OIT) (kv_usage running : ℤ) : Bool :=
  decide (o.kv_threshold < kv_usage) || decide (o.max_batch ≤ running)

/-- OIT.should_throttle: evicts both windows (a mutation, hence the returned
state) and decides; stage ≠ USER_PROMPT short-circuits to false. -/
def OIT.should_throttle (o : OIT) (req : Request) (kv_usage running : ℤ) :
    Bool × OIT :=
  let dq_u := o.evict (windowOf o.user_windows req.user.user_id) req.arrival_time
  let dq_a := o.evict (windowOf o.app_windows req.application.app_id) req.arrival_time
  let o' := { o with
    user_windows := setWindow o.user_windows req.user.user_id dq_u,
    app_windows := setWindow o.app_windows req.application.app_id dq_a }
  let b :=
    if ¬ (o.is_overloaded kv_usage running) = true then false
    else if req.stage ≠ InteractionStage.USER_PROMPT then false
    else if req.application.user_rpm_limit ≤ (dq_u.length : ℤ) then true
    else if req.application.app_rpm_limit ≤ (dq_a.length : ℤ) then true
    else false
  (b, o')

/-- OIT.throttle: set the request's flag and bump the counter. -/
def OIT.throttle (o : OIT) (req : Request) : Request × OIT :=
  ({ req with throttled := true }, { o with throttled := o.throttled + 1 })

/-! ### Engine (vllm_engine.py) -/

/-- Engine event kinds. -/
inductive EngineEventType
  | PREFILL_CHUNK_STARTED
  | PREFILL_CHUNK_FINISHED
  | DECODE_STEP
  | REQUEST_COMPLETED
deriving DecidableEq, Repr

/-- EngineEvent dataclass. -/
structure EngineEvent where
  event_type : EngineEventType
  time : ℚ
  request_id : ℤ
  chunk_id : Option ℤ := none
  chunk_len : Option ℤ := none
  token_index : Option ℤ := none
  tokens_generated_this_step : Option ℤ := none
deriving DecidableEq, Repr

/-- EngineStateSnapshot dataclass. -/
structure EngineStateSnapshot where
  time : ℚ
  num_active_decodes : ℕ
  has_active_prefill : Bool
  kv_tokens_used : ℤ
  kv_tokens_capacity : ℤ
  num_pending_prefills : ℕ
  num_completed_requests : ℕ
deriving DecidableEq, Repr

/-- The dict VLLMEngineSimulator.active_prefill {request, remaining, chunk_id}. -/
structure ActivePrefill where
  request : Request
  remaining : ℤ
  chunk_id : ℤ
deriving DecidableEq, Repr

/-- VLLMEngineSimulator state (the `prefill_started` set is kept for
faithfulness; the source never reads or writes it after construction). -/
structure Engine where
  max_kv_tokens : ℤ := 20000
  max_num_batched_tokens : ℤ := 16
  chunk_size : ℤ := 256
  a_prefill : ℚ := 1 / 10000
  b_prefill : ℚ := 1 / 100
  c_prefill : ℚ := 1 / 10
  a_decode : ℚ := 5 / 100000
  b_decode : ℚ := 5 / 100
  time : ℚ := 0
  pending_prefill : List Request := []
  active_prefill : Option ActivePrefill := none
  active_decodes : List Request := []
  completed : List Request := []
  kv_tokens : ℤ := 0
  prefill_started : List ℤ := []
deriving DecidableEq, Repr

/-- submit_request: queue a request for prefill. -/
def Engine.submit_request (e : Engine) (request : Request) : Engine :=
  { e with pending_prefill := e.pending_prefill ++ [request] }

/-- has_pending_work. -/
def Engine.has_pending_work (e : Engine) : Bool :=
  decide (e.pending_prefill ≠ []) || decide (e.active_prefill ≠ none) ||
    decide (e.active_decodes ≠ [])

/-- _prefill_time. -/
def Engine.prefill_time (e : Engine) (chunk_len : ℤ) : ℚ :=
  e.a_prefill * ((chunk_len : ℚ) ^ 2) + e.b_prefill * (chunk_len : ℚ) + e.c_prefill

/-- _decode_time (reads the current kv_tokens). -/
def Engine.decode_time (e : Engine) (batch_tokens : ℤ) : ℚ :=
  e.a_decode * (e.kv_tokens : ℚ) * (batch_tokens : ℚ) + e.b_decode

/-- get_state_snapshot. -/
def Engine.get_state_snapshot (e : Engine) : EngineStateSnapshot :=
  { time := e.time
    num_active_decodes := (e.active_decodes.filter (fun r => 0 < r.remaining_decode)).length
    has_active_prefill := decide (e.active_prefill ≠ none)
    kv_tokens_used := e.kv_tokens
    kv_tokens_capacity := e.max_kv_tokens
    num_pending_prefills := e.pending_prefill.length
    num_completed_requests := e.completed.length }

/-- _maybe_start_prefill.  Early returns (None in Python) leave the engine
unchanged except in the fall-through after the admission block, where the
mutation is kept exactly as in the source.  The result carries
(chunk_len, events, finish_time) like the Python tuple. -/
def Engine.maybe_start_prefill (e : Engine) (token_budget : ℤ) :
    Option (ℤ × List EngineEvent × ℚ) × Engine :=
  -- admission block: if no active prefill and pending is non-empty
  let e1opt : Option Engine :=
    match e.active_prefill, e.pending_prefill with
    | none, candidate :: rest =>
      let remaining := candidate.input_tokens + candidate.system_tokens
      let cl := min (min e.chunk_size remaining) token_budget
      if cl ≤ 0 then none
      else if e.max_kv_tokens < e.kv_tokens + remaining then none
      else some { e with
        pending_prefill := rest,
        active_prefill := some { request := candidate, remaining, chunk_id := 0 } }
    | _, _ => some e
  match e1opt with
  | none => (none, e)
  | some e1 =>
    match e1.active_prefill with
    | none => (none, e1)
    | some ap =>
      let chunk_len := min (min e1.chunk_size ap.remaining) token_budget
      if chunk_len ≤ 0 then (none, e1)
      else
        let req := ap.request
        let start_event : EngineEvent :=
          { event_type := .PREFILL_CHUNK_STARTED, time := e1.time,
            request_id := req.request_id, chunk_id := some ap.chunk_id,
            chunk_len := some chunk_len }
        let finish_time := e1.prefill_time chunk_len
        let finish_event : EngineEvent :=
          { event_type := .PREFILL_CHUNK_FINISHED, time := e1.time + finish_time,
            request_id := req.request_id, chunk_id := some ap.chunk_id,
            chunk_len := some chunk_len }
        let req' := if req.start_time = none then { req with start_time := some e1.time } else req
        let newRemaining := ap.remaining - chunk_len
        let e2 : Engine :=
          if newRemaining ≤ 0 then
            { e1 with
              active_prefill := none,
              active_decodes := e1.active_decodes ++ [req'],
              kv_tokens := e1.kv_tokens + chunk_len }
          else
            { e1 with
              active_prefill := some { request := req', remaining := newRemaining,
                                       chunk_id := ap.chunk_id + 1 },
              kv_tokens := e1.kv_tokens + chunk_len }
        (some (chunk_len, [start_event, finish_event], finish_time), e2)

/-- The decode loop of step(): walk active_decodes serving at most k requests
with remaining_decode > 0, decrementing each served request in place.
Returns the updated list and the served requests in order. -/
def decodeServe : List Request → ℕ → List Request × List Request
  | rs, 0 => (rs, [])
  | [], _ + 1 => ([], [])
  | r :: rs, k + 1 =>
    if 0 < r.remaining_decode then
      let r' := { r with remaining_decode := r.remaining_decode - 1 }
      let (rest, served) := decodeServe rs k
      (r' :: rest, r' :: served)
    else
      let (rest, served) := decodeServe rs (k + 1)
      (r :: rest, served)

/-- The DECODE_STEP event for one served request (fields as in step()). -/
def decodeEvent (t : ℚ) (r : Request) : EngineEvent :=
  { event_type := .DECODE_STEP, time := t, request_id := r.request_id,
    token_index := some (r.output_tokens_target - r.remaining_decode),
    tokens_generated_this_step := some 1 }

/-- The decode_candidates list of step(). -/
def Engine.decodeCandidates (e : Engine) : List Request :=
  e.active_decodes.filter (fun r => 0 < r.remaining_decode)

/-- How many decodes step() serves: min(len(decode_candidates), token_budget)
when the decode phase runs, else 0. -/
def Engine.decodeTake (e : Engine) : ℕ :=
  if e.decodeCandidates ≠ [] ∧ 0 < e.max_num_batched_tokens then
    min e.decodeCandidates.length e.max_num_batched_tokens.toNat
  else 0

/-- active_decodes after the decode loop. -/
def Engine.decodeUpdated (e : Engine) : List Request :=
  (decodeServe e.active_decodes e.decodeTake).1

/-- decode_served of step(). -/
def Engine.decodeServed (e : Engine) : List Request :=
  (decodeServe e.active_decodes e.decodeTake).2

/-- The engine after the decode phase: updated decodes, kv_tokens grown by
one per served request. -/
def Engine.afterDecode (e : Engine) : Engine :=
  { e with active_decodes := e.decodeUpdated,
           kv_tokens := e.kv_tokens + (e.decodeServed.length : ℤ) }

/-- decode_time_cost of step() (computed on the post-decode kv_tokens). -/
def Engine.decodeCost (e : Engine) : ℚ :=
  if (e.decodeServed.length : ℤ) ≠ 0 then
    e.afterDecode.decode_time (e.decodeServed.length : ℤ)
  else 0

/-- The prefill phase of step(): _maybe_start_prefill on the remaining
budget, skipped when no budget remains. -/
def Engine.prefillResult (e : Engine) : Option (ℤ × List EngineEvent × ℚ) × Engine :=
  let budget1 := e.max_num_batched_tokens - (e.decodeServed.length : ℤ)
  if 0 < budget1 then e.afterDecode.maybe_start_prefill budget1
  else (none, e.afterDecode)

/-- step(): decode phase, then at most one prefill chunk, then completions,
then the time advance, exactly in source order. -/
def Engine.step (e : Engine) : List EngineEvent × Engine :=
  let decodeEvents := e.decodeServed.map (decodeEvent e.time)
  let (prefill_result, ePre) := e.prefillResult
  let (prefillEvents, prefill_cost) :=
    match prefill_result with
    | some (_, evs, c) => (evs, c)
    | none => ([], (0 : ℚ))
  let completions := ePre.active_decodes.filter (fun r => r.remaining_decode ≤ 0)
  let completionEvents := completions.map (fun r =>
    ({ event_type := .REQUEST_COMPLETED,
       time := ePre.time + e.decodeCost + prefill_cost,
       request_id := r.request_id } : EngineEvent))
  let eComp : Engine := { ePre with
    active_decodes := ePre.active_decodes.filter (fun r => 0 < r.remaining_decode),
    completed := ePre.completed ++ completions }
  let events := decodeEvents ++ prefillEvents ++ completionEvents
  let time_advance := e.decodeCost + prefill_cost
  if time_advance = 0 ∧ events = [] then ([], eComp)
  else (events, { eComp with time := eComp.time + max time_advance (1 / 10000) })

/-! ### Fairness schedulers (scheduler.py, the flat
(kv_tokens, kv_capacity, max_batch) interface implemented in src) -/

/-- defaultdict(float) read: a missing user has counter 0. -/
def counterD (c : List (String × ℚ)) (u : String) : ℚ := ((c.lookup u).getD 0)

/-- Counter assignment: update in place or append (defaultdict insertion). -/
def setCounter : List (String × ℚ) → String → ℚ → List (String × ℚ)
  | [], u, v => [(u, v)]
  | (k, w) :: rest, u, v =>
    if k = u then (k, v) :: rest else (k, w) :: setCounter rest u v

/-- Python min() of a non-empty list of values (0 for [] is never used:
every call site guards non-emptiness as the source does). -/
def listMin : List ℚ → ℚ
  | [] => 0
  | x :: xs => xs.foldl min x

/-- Python min(keys, key=f): the first key attaining the minimum, in list
order (min only replaces on a strictly smaller key value). -/
def argminKey (f : String → ℚ) : List String → Option String
  | [] => none
  | k :: ks => some (ks.foldl (fun best c => if f c < f best then c else best) k)

/-- The dict built at the top of each selection loop iteration:
first request of each user, in order of first occurrence in waiting. -/
def buildWaitingByUser (waiting : List Request) : List (String × Request) :=
  waiting.foldl
    (fun acc r =>
      if (acc.lookup r.user.user_id).isSome then acc
      else acc ++ [(r.user.user_id, r)])
    []

/-- VTCScheduler state. -/
structure VTCState where
  w_p : ℚ := 1
  w_q : ℚ := 1
  counter_lift : Bool := true
  counters : List (String × ℚ) := []
deriving DecidableEq, Repr

/-- VTCScheduler.on_request_arrival: the counter lift. -/
def VTCState.on_request_arrival (st : VTCState) (request : Request) : VTCState :=
  if st.counter_lift then
    let active := st.counters.map Prod.snd
    match active with
    | [] => st
    | _ :: _ =>
      let minimum := listMin active
      let u := request.user.user_id
      { st with counters := setCounter st.counters u (max (counterD st.counters u) minimum) }
  else st

/-- VTCScheduler.on_prefill_added. -/
def VTCState.on_prefill_added (st : VTCState) (request : Request) : VTCState :=
  let u := request.user.user_id
  { st with counters := (setCounter st.counters u
      (counterD st.counters u + st.w_p * ((request.input_tokens + request.system_tokens : ℤ) : ℚ))) }

/-- VTCScheduler.on_decode_iteration. -/
def VTCState.on_decode_iteration (st : VTCState) (served : List Request) : VTCState :=
  served.foldl
    (fun st req =>
      let u := req.user.user_id
      { st with counters := setCounter st.counters u (counterD st.counters u + st.w_q) })
    st

/-- The while loop of VTCScheduler.select_next_requests.  Fuel is the length
of the waiting queue: each admitted candidate is removed from waiting, so the
loop runs at most that many times.  Returns (selected, waiting). -/
def vtcSelectAux (counters : List (String × ℚ)) (kv_capacity max_batch : ℤ) :
    ℕ → List Request → ℤ → List Request → List Request × List Request
  | 0, waiting, _, selected => (selected, waiting)
  | fuel + 1, waiting, kv_tokens, selected =>
    if waiting ≠ [] ∧ (selected.length : ℤ) < max_batch then
      let wbu := buildWaitingByUser waiting
      match argminKey (counterD counters) (wbu.map Prod.fst) with
      | none => (selected, waiting)
      | some user_choice =>
        match wbu.lookup user_choice with
        | none => (selected, waiting)
        | some candidate =>
          if kv_capacity < kv_tokens + (candidate.input_tokens + candidate.system_tokens) then
            (selected, waiting)
          else
            vtcSelectAux counters kv_capacity max_batch fuel
              (waiting.erase candidate)
              (kv_tokens + (candidate.input_tokens + candidate.system_tokens))
              (selected ++ [candidate])
    else (selected, waiting)

/-- VTCScheduler.select_next_requests (selection result and mutated waiting;
the scheduler's counters are only read during selection). -/
def VTCState.select_next_requests (st : VTCState) (waiting : List Request)
    (_interactions : List (ℤ × Interaction)) (kv_tokens kv_capacity max_batch : ℤ) :
    List Request × List Request :=
  vtcSelectAux st.counters kv_capacity max_batch waiting.length waiting kv_tokens []

/-- FairServeScheduler (WSC) state. -/
structure FSState where
  alpha : ℚ := 1
  beta : ℚ := 2
  gamma : ℚ := 1
  counter_lift : Bool := true
  service : List (String × ℚ) := []
deriving DecidableEq, Repr

/-- FairServeScheduler._weight. -/
def FSState.weight (st : FSState) (req : Request) : ℚ :=
  req.application.stage_weight req.stage st.alpha st.beta st.gamma

/-- FairServeScheduler.on_request_arrival: same lift rule as VTC. -/
def FSState.on_request_arrival (st : FSState) (request : Request) : FSState :=
  if st.counter_lift then
    match st.service with
    | [] => st
    | _ :: _ =>
      let minimum := listMin (st.service.map Prod.snd)
      let u := request.user.user_id
      { st with service := setCounter st.service u (max (counterD st.service u) minimum) }
  else st

/-- FairServeScheduler.on_prefill_added. -/
def FSState.on_prefill_added (st : FSState) (request : Request) : FSState :=
  let tokens := st.alpha * ((request.input_tokens : ℤ) : ℚ) + st.beta * ((request.system_tokens : ℤ) : ℚ)
  let inc := request.user.priority * tokens / st.weight request
  let u := request.user.user_id
  { st with service := setCounter st.service u (counterD st.service u + inc) }

/-- FairServeScheduler.on_decode_iteration. -/
def FSState.on_decode_iteration (st : FSState) (served : List Request) : FSState :=
  served.foldl
    (fun st req =>
      let inc := req.user.priority * st.gamma / st.weight req
      let u := req.user.user_id
      { st with service := setCounter st.service u (counterD st.service u + inc) })
    st

/-- The filter building ready_interactions in
FairServeScheduler.select_next_requests. -/
def readyInteractions (interactions : List (ℤ × Interaction)) : List Interaction :=
  (interactions.map Prod.snd).filter
    (fun i => !i.complete && decide (i.next_index < i.requests.length))

/-- Assoc-list insert-or-replace keeping position of an existing key
(Python dict comprehension: later values overwrite, key order is first
occurrence). -/
def insertReplace : List (String × Interaction) → String → Interaction →
    List (String × Interaction)
  | [], u, i => [(u, i)]
  | (k, j) :: rest, u, i =>
    if k = u then (k, i) :: rest else (k, j) :: insertReplace rest u i

/-- The ready_users dict comprehension keyed by the next pending request's
user. -/
def buildReadyUsers (ris : List Interaction) : List (String × Interaction) :=
  ris.foldl
    (fun acc i =>
      if i.next_index < i.requests.length then
        match i.requests.get? i.next_index with
        | some r => insertReplace acc r.user.user_id i
        | none => acc
      else acc)
    []

/-- Remove the entry of a key (dict.pop on a present key). -/
def popKey : List (String × Interaction) → String → List (String × Interaction)
  | [], _ => []
  | (k, i) :: rest, u => if k = u then rest else (k, i) :: popKey rest u

/-- Write back a mutated Interaction into the interactions map (the Python
object is shared with the caller's dict, keyed by interaction_id). -/
def updateInteraction (interactions : List (ℤ × Interaction)) (iid : ℤ)
    (i : Interaction) : List (ℤ × Interaction) :=
  interactions.map (fun p => if p.1 = iid then (p.1, i) else p)

/-- The while loop of FairServeScheduler.select_next_requests.  Fuel is
|ready_users| + |waiting|: every iteration that admits pops one ready user or
removes one waiting request.  Returns (selected, waiting, interactions). -/
def fsSelectAux (service : List (String × ℚ)) (kv_capacity max_batch : ℤ) :
    ℕ → List (String × Interaction) → List Request → List (ℤ × Interaction) →
    ℤ → List Request → List Request × List Request × List (ℤ × Interaction)
  | 0, _, waiting, interactions, _, selected => (selected, waiting, interactions)
  | fuel + 1, ready_users, waiting, interactions, kv_tokens, selected =>
    if (selected.length : ℤ) < max_batch ∧ kv_tokens < kv_capacity then
      match ready_users with
      | _ :: _ =>
        match argminKey (counterD service) (ready_users.map Prod.fst) with
        | none => (selected, waiting, interactions)
        | some uid =>
          match ready_users.lookup uid with
          | none => (selected, waiting, interactions)
          | some inter =>
            let ready' := popKey ready_users uid
            match inter.requests.get? inter.next_index with
            | none => (selected, waiting, interactions)
            | some req =>
              if kv_tokens + (req.input_tokens + req.system_tokens) ≤ kv_capacity then
                let inter' := { inter with next_index := inter.next_index + 1 }
                fsSelectAux service kv_capacity max_batch fuel ready'
                  waiting (updateInteraction interactions inter.interaction_id inter')
                  (kv_tokens + (req.input_tokens + req.system_tokens))
                  (selected ++ [req])
              else (selected, waiting, interactions)
      | [] =>
        match waiting with
        | [] => (selected, waiting, interactions)
        | _ :: _ =>
          let wbu := buildWaitingByUser waiting
          match argminKey (counterD service) (wbu.map Prod.fst) with
          | none => (selected, waiting, interactions)
          | some uid =>
            match wbu.lookup uid with
            | none => (selected, waiting, interactions)
            | some candidate =>
              if kv_capacity < kv_tokens + (candidate.input_tokens + candidate.system_tokens) then
                (selected, waiting, interactions)
              else
                fsSelectAux service kv_capacity max_batch fuel ready_users
                  (waiting.erase candidate) interactions
                  (kv_tokens + (candidate.input_tokens + candidate.system_tokens))
                  (selected ++ [candidate])
    else (selected, waiting, interactions)

/-- FairServeScheduler.select_next_requests. -/
def FSState.select_next_requests (st : FSState) (waiting : List Request)
    (interactions : List (ℤ × Interaction)) (kv_tokens kv_capacity max_batch : ℤ) :
    List Request × List Request × List (ℤ × Interaction) :=
  let ready_users := buildReadyUsers (readyInteractions interactions)
  fsSelectAux st.service kv_capacity max_batch
    (ready_users.length + waiting.length) ready_users waiting interactions kv_tokens []

/-! ### Simulator orchestrator (simulator.py) -/

/-- Generic assoc-list assignment: replace in place or append. -/
def setKey {κ α : Type} [DecidableEq κ] : List (κ × α) → κ → α → List (κ × α)
  | [], k, v => [(k, v)]
  | (k', w) :: rest, k, v =>
    if k' = k then (k', v) :: rest else (k', w) :: setKey rest k v

/-- Python int() on a rational: truncation toward zero. -/
def pyInt (q : ℚ) : ℤ := q.num.tdiv (q.den : ℤ)

/-- Modelled from the spec: the snapshot-variant scheduler interface of
section 4.2 (four hooks; select_next_requests is handed the waiting queue,
the live interactions map, an engine snapshot and a max_to_release cap, and
returns the requests to submit this tick, the remaining waiting queue, and
the scheduler's updated state).  The simulator in src calls this interface,
but the scheduler implementations in src/scheduler.py only provide the flat
(kv_tokens, kv_capacity, max_batch) signature, which the spec's design notes
mark as superseded; the snapshot-variant implementations are missing from
src. -/
structure Scheduler (σ : Type) where
  on_request_arrival : σ → Request → σ
  on_prefill_added : σ → Request → σ
  on_decode_iteration : σ → List Request → σ
  select_next_requests : σ → List Request → List (ℤ × Interaction) →
    EngineStateSnapshot → ℤ → List Request × List Request × σ

/-- The metrics record produced by _gather_metrics. -/
structure Metrics where
  completed : ℕ
  avg_latency : ℚ
  wasted_tokens : ℤ
  throttled : ℕ
  per_user_tokens : List (String × ℚ)
deriving DecidableEq, Repr

/-- Simulator state (simulator.py), parametrised by the scheduler state. -/
structure Simulator (σ : Type) where
  sched : Scheduler σ
  schedState : σ
  oit : Option OIT
  kv_capacity : ℤ := 20000
  max_batch : ℤ := 16
  max_time : ℤ := 2000
  current_tick : ℤ := 0
  waiting : List Request := []
  interactions : List (ℤ × Interaction) := []
  completed_requests : List Request := []
  throttled_requests : List Request := []
  wasted_tokens : ℤ := 0
  metrics : Option Metrics := none
  engine : Engine
  accounted_prefill : List ℤ := []
  id_to_request : List (ℤ × Request) := []

/-- Simulator.__init__: the engine is built from kv_capacity and max_batch. -/
def mkSimulator {σ : Type} (sched : Scheduler σ) (schedState : σ) (oit : Option OIT)
    (kv_capacity : ℤ := 20000) (max_batch : ℤ := 16) (max_time : ℤ := 2000) :
    Simulator σ :=
  { sched, schedState, oit, kv_capacity, max_batch, max_time,
    engine := { max_kv_tokens := kv_capacity, max_num_batched_tokens := max_batch } }

/-- Simulator._accept_request. -/
def Simulator.accept_request {σ : Type} (s : Simulator σ) (req : Request) :
    Simulator σ :=
  { s with
    schedState := s.sched.on_request_arrival s.schedState req,
    waiting := s.waiting ++ [req],
    id_to_request := setKey s.id_to_request req.request_id req }

/-- Simulator.submit_interaction: register the interaction and accept its
first stage request (next_request's cursor advance is visible through the
stored interaction, as the Python dict holds the same object). -/
def Simulator.submit_interaction {σ : Type} (s : Simulator σ)
    (interaction : Interaction) : Simulator σ :=
  let (reqOpt, inter') := interaction.next_request
  let s1 := { s with
    interactions := setKey s.interactions interaction.interaction_id inter' }
  match reqOpt with
  | some req => s1.accept_request req
  | none => s1

/-- Simulator.inject_requests: offer each arrival to OIT, then accept or
throttle. -/
def Simulator.inject_requests {σ : Type} (s : Simulator σ)
    (new_requests : List Request) : Simulator σ :=
  new_requests.foldl
    (fun s req =>
      let snapshot := s.engine.get_state_snapshot
      match s.oit with
      | some oit =>
        let (b, oit') := oit.should_throttle req snapshot.kv_tokens_used
          (snapshot.num_active_decodes : ℤ)
        if b then
          let (req', oit2) := oit'.throttle req
          { s with oit := some oit2,
                   throttled_requests := s.throttled_requests ++ [req'] }
        else
          ({ s with oit := some (oit'.record_arrival req) }).accept_request req
      | none => s.accept_request req)
    s

/-- Simulator._admit_to_engine: hand the scheduler the waiting queue, the
interactions map, an engine snapshot and the max_to_release cap, and submit
every returned request to the engine. -/
def Simulator.admit_to_engine {σ : Type} (s : Simulator σ) : Simulator σ :=
  let snapshot := s.engine.get_state_snapshot
  let (selected, waiting', sst') :=
    s.sched.select_next_requests s.schedState s.waiting s.interactions snapshot s.max_batch
  { s with waiting := waiting', schedState := sst',
           engine := selected.foldl Engine.submit_request s.engine }

/-- Simulator._process_events: scheduler accounting and interaction
continuation, folding over the events of one engine step. -/
def Simulator.process_events {σ : Type} (s : Simulator σ)
    (events : List EngineEvent) : Simulator σ :=
  let (s1, decode_served) := events.foldl
    (fun (acc : Simulator σ × List Request) ev =>
      let (st, served) := acc
      match st.id_to_request.lookup ev.request_id with
      | none => (st, served)
      | some req =>
        match ev.event_type with
        | .PREFILL_CHUNK_STARTED =>
          if ev.chunk_id = some 0 ∧ ev.request_id ∉ st.accounted_prefill then
            ({ st with
               schedState := st.sched.on_prefill_added st.schedState req,
               accounted_prefill := st.accounted_prefill ++ [ev.request_id] }, served)
          else (st, served)
        | .DECODE_STEP => (st, served ++ [req])
        | .REQUEST_COMPLETED =>
          let req' := { req with completion_time := some ev.time }
          let st1 := { st with
            id_to_request := setKey st.id_to_request ev.request_id req',
            completed_requests := st.completed_requests ++ [req'] }
          (match st1.interactions.lookup req.interaction_id with
          | none => (st1, served)
          | some inter =>
            let inter1 := inter.mark_stage_complete
            let (nxtOpt, inter2) := inter1.next_request
            match nxtOpt with
            | none =>
              ({ st1 with
                 interactions := setKey st1.interactions req.interaction_id inter2 }, served)
            | some nxt =>
              let nxt' := { nxt with arrival_time := pyInt ev.time }
              let inter3 := { inter2 with
                requests := inter2.requests.set (inter2.next_index - 1) nxt' }
              let st2 := { st1 with
                interactions := setKey st1.interactions req.interaction_id inter3 }
              (st2.accept_request nxt', served))
        | .PREFILL_CHUNK_FINISHED => (st, served))
    (s, [])
  if decode_served ≠ [] then
    { s1 with schedState := s1.sched.on_decode_iteration s1.schedState decode_served }
  else s1

/-- Simulator.step: admit, step the engine, process events, advance the tick. -/
def Simulator.step {σ : Type} (s : Simulator σ) : Simulator σ :=
  let s1 := s.admit_to_engine
  let (events, engine') := s1.engine.step
  let s2 := { s1 with engine := engine' }
  let s3 := if events ≠ [] then s2.process_events events else s2
  { s3 with current_tick := s3.current_tick + 1 }

/-- Simulator._gather_metrics. -/
def Simulator.gather_metrics {σ : Type} (s : Simulator σ) : Metrics :=
  let per_user := s.completed_requests.foldl
    (fun acc r => setCounter acc r.user.user_id
      (counterD acc r.user.user_id +
        ((r.input_tokens + r.system_tokens + r.output_tokens_target : ℤ) : ℚ)))
    []
  let latSum := s.completed_requests.foldl
    (fun acc r =>
      match r.completion_time with
      | some t => acc + (t - (r.arrival_time : ℚ))
      | none => acc)
    0
  { completed := s.completed_requests.length
    avg_latency := latSum / ((max 1 s.completed_requests.length : ℕ) : ℚ)
    wasted_tokens := s.wasted_tokens
    throttled := s.throttled_requests.length
    per_user_tokens := per_user }

/-- The run() loop condition. -/
def Simulator.loopCond {σ : Type} (s : Simulator σ) : Bool :=
  decide (s.current_tick < s.max_time) &&
    (decide (s.waiting ≠ []) || s.engine.has_pending_work ||
      s.interactions.any (fun p => !p.2.complete))

/-- The run() while loop.  Each step increments current_tick by exactly one,
so fuel max_time − current_tick bounds the iteration count exactly: when the
fuel runs out the condition is already false. -/
def Simulator.runLoop {σ : Type} : ℕ → Simulator σ → Simulator σ
  | 0, s => s
  | fuel + 1, s => if s.loopCond then Simulator.runLoop fuel s.step else s

/-- Simulator.run: loop, account wasted tokens of still-waiting requests,
gather metrics. -/
def Simulator.run {σ : Type} (s : Simulator σ) : Simulator σ :=
  let s1 := Simulator.runLoop (s.max_time - s.current_tick).toNat s
  let s2 := { s1 with wasted_tokens := (s1.wasted_tokens +
    s1.waiting.foldl
      (fun acc (r : Request) => acc + (r.input_tokens + r.system_tokens + r.remaining_decode)) 0) }
  { s2 with metrics := some s2.gather_metrics }

/-! ### Spec-worded VTC selection (section 4.2.2), for refinement of the
selection loop.  Two renderings differ only in the tie-break: the spec text
says lexicographic user_id; the queue-order variant is the amended rule. -/

/-- The users having a waiting request, in order of their earliest waiting
request (the key order of head_by_user). -/
def firstUsers : List Request → List String
  | [] => []
  | r :: rs => r.user.user_id :: (firstUsers rs).filter (fun u => u ≠ r.user.user_id)

/-- The earliest waiting request of a user. -/
def headRequestOf (waiting : List Request) (u : String) : Option Request :=
  waiting.find? (fun r => r.user.user_id = u)

/-- Lexicographic order on code points, Python string comparison. -/
def charListLt : List Char → List Char → Bool
  | _, [] => false
  | [], _ :: _ => true
  | c :: cs, d :: ds =>
    if c.toNat < d.toNat then true
    else if d.toNat < c.toNat then false
    else charListLt cs ds

/-- Lexicographic order on strings, Python string comparison. -/
def strLtB (a b : String) : Bool := charListLt a.data b.data

/-- Smallest key value, ties broken by lexicographically smallest user_id
(the tie-break the spec text states). -/
def argminLex (f : String → ℚ) : List String → Option String
  | [] => none
  | u :: rest => some (rest.foldl
      (fun best c => if f c < f best ∨ (f c = f best ∧ strLtB c best) then c else best) u)

/-- VTC selection as the spec words it, with the spec's lexicographic
tie-break: build head_by_user (earliest waiting request of each user), pick
the user with smallest counter, check capacity, admit or stop. -/
def vtcSelectLexAux (counters : List (String × ℚ)) (kv_capacity max_batch : ℤ) :
    ℕ → List Request → ℤ → List Request → List Request
  | 0, _, _, selected => selected
  | fuel + 1, waiting, kv_tokens, selected =>
    if waiting ≠ [] ∧ (selected.length : ℤ) < max_batch then
      match argminLex (counterD counters) (firstUsers waiting) with
      | none => selected
      | some uid =>
        match headRequestOf waiting uid with
        | none => selected
        | some candidate =>
          if kv_capacity < kv_tokens + (candidate.input_tokens + candidate.system_tokens) then
            selected
          else
            vtcSelectLexAux counters kv_capacity max_batch fuel
              (waiting.erase candidate)
              (kv_tokens + (candidate.input_tokens + candidate.system_tokens))
              (selected ++ [candidate])
    else selected

/-- The list of requests VTC releases per the spec's words with the
lexicographic tie-break. -/
def vtcSelectLex (counters : List (String × ℚ)) (kv_capacity max_batch : ℤ)
    (waiting : List Request) (kv_tokens : ℤ) : List Request :=
  vtcSelectLexAux counters kv_capacity max_batch waiting.length waiting kv_tokens []

/-- VTC selection as the spec words it, with the amended tie-break: on equal
smallest counters, the user whose earliest waiting request occurs first in
the queue is chosen. -/
def vtcSelectQueueAux (counters : List (String × ℚ)) (kv_capacity max_batch : ℤ) :
    ℕ → List Request → ℤ → List Request → List Request
  | 0, _, _, selected => selected
  | fuel + 1, waiting, kv_tokens, selected =>
    if waiting ≠ [] ∧ (selected.length : ℤ) < max_batch then
      match argminKey (counterD counters) (firstUsers waiting) with
      | none => selected
      | some uid =>
        match headRequestOf waiting uid with
        | none => selected
        | some candidate =>
          if kv_capacity < kv_tokens + (candidate.input_tokens + candidate.system_tokens) then
            selected
          else
            vtcSelectQueueAux counters kv_capacity max_batch fuel
              (waiting.erase candidate)
              (kv_tokens + (candidate.input_tokens + candidate.system_tokens))
              (selected ++ [candidate])
    else selected

/-- The list of requests VTC releases per the spec's words with the
queue-order tie-break. -/
def vtcSelectQueue (counters : List (String × ℚ)) (kv_capacity max_batch : ℤ)
    (waiting : List Request) (kv_tokens : ℤ) : List Request :=
  vtcSelectQueueAux counters kv_capacity max_batch waiting.length waiting kv_tokens []

/-! ### Well-formedness predicates and concrete fixtures used by the
theorems below. -/

/-- All expected-token dict entries of an application are non-negative. -/
def appNonneg (app : Application) : Prop :=
  (∀ p ∈ app.expected_input_tokens, 0 ≤ p.2) ∧
  (∀ p ∈ app.expected_system_tokens, 0 ≤ p.2) ∧
  (∀ p ∈ app.expected_output_tokens, 0 ≤ p.2)

instance (app : Application) : Decidable (appNonneg app) := by
  unfold appNonneg; infer_instance

/-- The toy application of tests.py. -/
def appT : Application :=
  { app_id := "toy", expected_input_tokens := [(0, 10), (1, 5)],
    expected_system_tokens := [(0, 2), (1, 2)],
    expected_output_tokens := [(0, 5), (1, 5)] }

/-- Test users. -/
def uA : User := { user_id := "a" }

/-- Test users. -/
def uB : User := { user_id := "b" }

/-- Waiting requests of users b and a, in that queue order (VTC tie-break). -/
def reqB0 : Request := mkRequest 0 uB appT 0 .USER_PROMPT 10 2 5 0

/-- Waiting requests of users b and a, in that queue order (VTC tie-break). -/
def reqA0 : Request := mkRequest 1 uA appT 1 .USER_PROMPT 10 2 5 0

/-- A two-stage interaction whose stage-0 request has been released to the
waiting queue (next_index = 1) and has not completed. -/
def reqP : Request := mkRequest 10 uA appT 7 .USER_PROMPT 10 2 5 0

/-- The stage-1 continuation of the same interaction. -/
def reqC : Request := mkRequest 11 uA appT 7 .AGENT_1 5 2 5 0

/-- The interaction holding reqP (stage 0, in waiting) and reqC (stage 1). -/
def interPC : Interaction :=
  { interaction_id := 7, requests := [reqP, reqC], next_index := 1 }

/-- Spec scenario 6: the USER_PROMPT of user a, waiting. -/
def reqPa : Request := mkRequest 20 uA appT 8 .USER_PROMPT 10 2 5 0

/-- a's single-stage interaction, its only request already released. -/
def interA1 : Interaction :=
  { interaction_id := 8, requests := [reqPa], next_index := 1 }

/-- b's completed stage-0 request. -/
def reqPb : Request := mkRequest 21 uB appT 9 .USER_PROMPT 10 2 5 0

/-- b's AGENT_1 continuation, waiting. -/
def reqCb : Request := mkRequest 22 uB appT 9 .AGENT_1 5 2 5 0

/-- b's interaction with both stages already released (cursor exhausted). -/
def interB1 : Interaction :=
  { interaction_id := 9, requests := [reqPb, reqCb], next_index := 2 }

/-- The FINAL-stage pending request of a's two-stage interaction variant. -/
def reqFa : Request := mkRequest 23 uA appT 8 .FINAL 5 2 5 0

/-- a's interaction variant whose FINAL request is still pending, so it sits
in WSC's primary (ready) pool. -/
def interA2 : Interaction :=
  { interaction_id := 8, requests := [reqPa, reqFa], next_index := 1 }

/-- An engine at full KV capacity with one decoding request left: the next
decode step pushes kv_tokens over max_kv_tokens. -/
def reqD : Request := mkRequest 30 uA appT 0 .USER_PROMPT 10 0 1 0

/-- An engine at full KV capacity with one decoding request left: the next
decode step pushes kv_tokens over max_kv_tokens. -/
def engOver : Engine :=
  { max_kv_tokens := 10, max_num_batched_tokens := 4, kv_tokens := 10,
    active_decodes := [{ reqD with remaining_decode := 1 }] }

/-- An engine whose pending head needs more KV than remains. -/
def reqBig : Request := mkRequest 31 uA appT 0 .USER_PROMPT 900 0 1 0

/-- An engine whose pending head needs more KV than remains. -/
def engBlocked : Engine :=
  { max_kv_tokens := 1000, max_num_batched_tokens := 4, kv_tokens := 200,
    pending_prefill := [reqBig] }

/-- A throttle state in permanent overload (kv_threshold 1, max_batch 1),
as in tests.py test_oit_no_mid_interaction_throttle. -/
def oitHot : OIT := { kv_threshold := 1, max_batch := 1 }

/-- A VTC state with one populated counter, to witness the lift rule. -/
def vtcW : VTCState := { counters := [("b", 3)] }

/-- A trivial scheduler instance over Unit state, used to instantiate the
orchestrator-level theorems at a concrete simulator value. -/
def trivialScheduler : Scheduler Unit :=
  { on_request_arrival := fun st _ => st
    on_prefill_added := fun st _ => st
    on_decode_iteration := fun st _ => st
    select_next_requests := fun st waiting _ _ _ => ([], waiting, st) }

/-- A concrete simulator holding one interaction, for witnesses. -/
def simT : Simulator Unit :=
  (mkSimulator trivialScheduler () (some oitHot) 200 1 5).submit_interaction interPC

/-! ## Helper lemmas -/

theorem shouldThrottle_false_of_nonprompt (o : OIT) (req : Request)
    (kv_usage running : ℤ) (h : req.stage ≠ InteractionStage.USER_PROMPT) :
    (o.should_throttle req kv_usage running).1 = false := by
  simp only [OIT.should_throttle]
  split_ifs <;> simp_all

theorem stage_of_shouldThrottle_true (o : OIT) (req : Request)
    (kv_usage running : ℤ) (h : (o.should_throttle req kv_usage running).1 = true) :
    req.stage = InteractionStage.USER_PROMPT := by
  by_contra hne
  rw [shouldThrottle_false_of_nonprompt o req kv_usage running hne] at h
  exact Bool.false_ne_true h

theorem accept_throttled {σ : Type} (s : Simulator σ) (req : Request) :
    (s.accept_request req).throttled_requests = s.throttled_requests := rfl

theorem list_foldl_inv {α β : Type} (P : β → Prop) (f : β → α → β)
    (hstep : ∀ b a, P b → P (f b a)) :
    ∀ (l : List α) (b : β), P b → P (l.foldl f b) := by
  intro l
  induction l with
  | nil => intro b hb; exact hb
  | cons a rest ih => intro b hb; exact ih _ (hstep b a hb)

theorem inject_throttled_stage {σ : Type} (s : Simulator σ) (rs : List Request) :
    ∀ r ∈ (s.inject_requests rs).throttled_requests,
      r ∈ s.throttled_requests ∨ r.stage = InteractionStage.USER_PROMPT := by
  refine list_foldl_inv
    (fun st : Simulator σ => ∀ r ∈ st.throttled_requests,
      r ∈ s.throttled_requests ∨ r.stage = InteractionStage.USER_PROMPT)
    _ ?_ rs s (fun r hr => Or.inl hr)
  intro st req hP r hr
  rcases hoit : st.oit with _ | oit
  · simp only [hoit] at hr
    exact hP r (by rwa [accept_throttled] at hr)
  · simp only [hoit] at hr
    rcases hst : oit.should_throttle req (st.engine.get_state_snapshot).kv_tokens_used
        ((st.engine.get_state_snapshot).num_active_decodes : ℤ) with ⟨b, oit'⟩
    simp only [hst] at hr
    by_cases hb : b = true
    · subst hb
      simp only [if_pos rfl, OIT.throttle] at hr
      rcases List.mem_append.mp hr with hmem | hnew
      · exact hP r hmem
      · rcases List.mem_singleton.mp hnew with rfl
        exact Or.inr (stage_of_shouldThrottle_true oit req _ _ (by rw [hst]))
    · rw [Bool.not_eq_true] at hb
      subst hb
      simp only [Bool.false_eq_true, if_false] at hr
      exact hP r (by rwa [accept_throttled] at hr)

theorem foldl_submit_pending :
    ∀ (l : List Request) (e : Engine),
      (l.foldl Engine.submit_request e).pending_prefill = e.pending_prefill ++ l := by
  intro l
  induction l with
  | nil => intro e; simp
  | cons r rest ih =>
    intro e
    rw [List.foldl_cons, ih]
    simp [Engine.submit_request]

theorem maybe_kv_mono (e : Engine) (b : ℤ) :
    e.kv_tokens ≤ (e.maybe_start_prefill b).2.kv_tokens := by
  unfold Engine.maybe_start_prefill
  rcases hap : e.active_prefill with _ | ap
  · rcases hpp : e.pending_prefill with _ | ⟨c, rest⟩
    · simp [hap, hpp]
    · simp only [hap, hpp]
      split_ifs with h1 h2
      · simp
      · simp
      · dsimp only
        split_ifs with h3 h4 <;> dsimp only <;> omega
  · simp only [hap]
    split_ifs with h1 h2 <;> dsimp only <;> omega

theorem maybe_max_eq (e : Engine) (b : ℤ) :
    (e.maybe_start_prefill b).2.max_kv_tokens = e.max_kv_tokens := by
  unfold Engine.maybe_start_prefill
  rcases hap : e.active_prefill with _ | ap
  · rcases hpp : e.pending_prefill with _ | ⟨c, rest⟩
    · simp [hap, hpp]
    · simp only [hap, hpp]
      split_ifs with h1 h2
      · simp
      · simp
      · dsimp only
        split_ifs with h3 h4 <;> rfl
  · simp only [hap]
    split_ifs with h1 h2 <;> rfl

theorem maybe_pending_of_active (e : Engine) (b : ℤ) (ap : ActivePrefill)
    (hap : e.active_prefill = some ap) :
    (e.maybe_start_prefill b).2.pending_prefill = e.pending_prefill := by
  unfold Engine.maybe_start_prefill
  simp only [hap]
  split_ifs with h1 h2 <;> rfl

theorem maybe_blocked_noop (e : Engine) (b : ℤ) (c : Request) (rest : List Request)
    (hap : e.active_prefill = none) (hpp : e.pending_prefill = c :: rest)
    (hblock : e.max_kv_tokens < e.kv_tokens + (c.input_tokens + c.system_tokens)) :
    e.maybe_start_prefill b = (none, e) := by
  unfold Engine.maybe_start_prefill
  simp only [hap, hpp]
  split_ifs with h1 <;> rfl

theorem afterDecode_kv (e : Engine) : e.kv_tokens ≤ e.afterDecode.kv_tokens := by
  simp only [Engine.afterDecode]
  omega

theorem afterDecode_max (e : Engine) :
    e.afterDecode.max_kv_tokens = e.max_kv_tokens := rfl

theorem afterDecode_pending (e : Engine) :
    e.afterDecode.pending_prefill = e.pending_prefill := rfl

theorem afterDecode_active (e : Engine) :
    e.afterDecode.active_prefill = e.active_prefill := rfl

theorem prefillResult_kv (e : Engine) :
    e.afterDecode.kv_tokens ≤ (e.prefillResult).2.kv_tokens := by
  simp only [Engine.prefillResult]
  split_ifs with h
  · exact maybe_kv_mono _ _
  · exact le_refl _

theorem prefillResult_max (e : Engine) :
    (e.prefillResult).2.max_kv_tokens = e.max_kv_tokens := by
  simp only [Engine.prefillResult]
  split_ifs with h
  · rw [maybe_max_eq, afterDecode_max]
  · exact afterDecode_max e

theorem prefillResult_pending_blocked (e : Engine) (c : Request) (rest : List Request)
    (hpp : e.pending_prefill = c :: rest)
    (hblock : e.max_kv_tokens < e.kv_tokens + (c.input_tokens + c.system_tokens)) :
    (e.prefillResult).2.pending_prefill = e.pending_prefill := by
  simp only [Engine.prefillResult]
  split_ifs with h
  · rcases hap : e.afterDecode.active_prefill with _ | ap
    · rw [maybe_blocked_noop _ _ c rest hap (by rw [afterDecode_pending, hpp]) ?hb]
      · exact afterDecode_pending e
      case hb =>
        have := afterDecode_kv e
        rw [afterDecode_max]
        omega
    · rw [maybe_pending_of_active _ _ ap hap]
      exact afterDecode_pending e
  · exact afterDecode_pending e

theorem step_kv_eq (e : Engine) :
    (e.step).2.kv_tokens = (e.prefillResult).2.kv_tokens := by
  unfold Engine.step
  rcases hpr : e.prefillResult with ⟨pr, ePre⟩
  rcases pr with _ | ⟨cl, evs, c⟩ <;> dsimp only <;> split_ifs <;> rfl

theorem step_max_eq (e : Engine) :
    (e.step).2.max_kv_tokens = e.max_kv_tokens := by
  rw [← prefillResult_max e]
  unfold Engine.step
  rcases hpr : e.prefillResult with ⟨pr, ePre⟩
  rcases pr with _ | ⟨cl, evs, c⟩ <;> dsimp only <;> split_ifs <;> rfl

theorem step_pending_eq (e : Engine) :
    (e.step).2.pending_prefill = (e.prefillResult).2.pending_prefill := by
  unfold Engine.step
  rcases hpr : e.prefillResult with ⟨pr, ePre⟩
  rcases pr with _ | ⟨cl, evs, c⟩ <;> dsimp only <;> split_ifs <;> rfl

theorem step_kv_mono (e : Engine) : e.kv_tokens ≤ (e.step).2.kv_tokens := by
  rw [step_kv_eq]
  exact le_trans (afterDecode_kv e) (prefillResult_kv e)

theorem decodeServe_served_ne_nil :
    ∀ (rs : List Request) (k : ℕ), 0 < k →
      (∃ r ∈ rs, 0 < r.remaining_decode) → (decodeServe rs k).2 ≠ [] := by
  intro rs
  induction rs with
  | nil =>
    rintro k hk ⟨r, hr, _⟩
    exact absurd hr (List.not_mem_nil r)
  | cons a rest ih =>
    rintro k hk ⟨r, hr, hpos⟩
    match k, hk with
    | k + 1, _ =>
      by_cases ha : 0 < a.remaining_decode
      · rw [decodeServe, if_pos ha]
        rcases hds : decodeServe rest k with ⟨rest', served⟩
        simp
      · rw [decodeServe, if_neg ha]
        rcases List.mem_cons.mp hr with rfl | hr'
        · exact absurd hpos ha
        · have hne := ih (k + 1) (Nat.succ_pos k) ⟨r, hr', hpos⟩
          rcases hds : decodeServe rest (k + 1) with ⟨rest', served⟩
          rw [hds] at hne
          simpa using hne

theorem decodeServed_ne_nil (e : Engine)
    (hc : ∃ r ∈ e.active_decodes, 0 < r.remaining_decode)
    (hb : 1 ≤ e.max_num_batched_tokens) : e.decodeServed ≠ [] := by
  apply decodeServe_served_ne_nil _ _ _ hc
  unfold Engine.decodeTake
  have hcand : e.decodeCandidates ≠ [] := by
    unfold Engine.decodeCandidates
    rcases hc with ⟨r, hr, hpos⟩
    intro hfil
    have : r ∈ e.active_decodes.filter (fun r => decide (0 < r.remaining_decode)) := by
      simp [List.mem_filter, hr, hpos]
    rw [hfil] at this
    exact absurd this (List.not_mem_nil r)
  rw [if_pos ⟨hcand, by omega⟩]
  have h1 : 0 < e.decodeCandidates.length := List.length_pos.mpr hcand
  have h2 : 1 ≤ e.max_num_batched_tokens.toNat := by omega
  omega

theorem maybe_some (e : Engine) (b cl : ℤ) (evs : List EngineEvent) (cost : ℚ)
    (h : (e.maybe_start_prefill b).1 = some (cl, evs, cost)) :
    cl ≤ b ∧ ∀ ev ∈ evs, ev.chunk_len = some cl ∧
      (ev.event_type = EngineEventType.PREFILL_CHUNK_STARTED ∨
       ev.event_type = EngineEventType.PREFILL_CHUNK_FINISHED) := by
  unfold Engine.maybe_start_prefill at h
  rcases hap : e.active_prefill with _ | ap <;>
    rcases hpp : e.pending_prefill with _ | ⟨c, rest⟩ <;>
      simp only [hap, hpp] at h <;>
      repeat' split at h
  all_goals try dsimp only at h
  all_goals try (exfalso; exact Option.noConfusion h)
  all_goals simp only [Option.some.injEq, Prod.mk.injEq] at h
  all_goals obtain ⟨hcl, hevs, _⟩ := h
  all_goals subst hcl
  all_goals refine ⟨min_le_right _ _, ?_⟩
  all_goals intro ev hev
  all_goals rw [← hevs] at hev
  all_goals simp only [List.mem_cons, List.not_mem_nil, or_false] at hev
  all_goals rcases hev with rfl | rfl <;>
    first
      | exact ⟨rfl, Or.inl rfl⟩
      | exact ⟨rfl, Or.inr rfl⟩

theorem prefillResult_some (e : Engine) (cl : ℤ) (evs : List EngineEvent) (cost : ℚ)
    (h : (e.prefillResult).1 = some (cl, evs, cost)) :
    cl + (e.decodeServed.length : ℤ) ≤ e.max_num_batched_tokens ∧
    ∀ ev ∈ evs, ev.chunk_len = some cl ∧
      (ev.event_type = EngineEventType.PREFILL_CHUNK_STARTED ∨
       ev.event_type = EngineEventType.PREFILL_CHUNK_FINISHED) := by
  simp only [Engine.prefillResult] at h
  split at h
  · have := maybe_some _ _ _ _ _ h
    refine ⟨by omega, this.2⟩
  · simp at h

theorem decodeEvent_type (t : ℚ) (r : Request) :
    (decodeEvent t r).event_type = EngineEventType.DECODE_STEP := rfl

theorem step_emits_decode (e : Engine)
    (hc : ∃ r ∈ e.active_decodes, 0 < r.remaining_decode)
    (hb : 1 ≤ e.max_num_batched_tokens) :
    ∃ ev ∈ (e.step).1, ev.event_type = EngineEventType.DECODE_STEP := by
  have hserved := decodeServed_ne_nil e hc hb
  obtain ⟨r, rs', hsrv⟩ := List.exists_cons_of_ne_nil hserved
  unfold Engine.step
  rcases hpr : e.prefillResult with ⟨pr, ePre⟩
  rcases pr with _ | ⟨cl, evs, c⟩ <;> dsimp only <;> split
  · next hco => exact absurd hco.2 (by simp [hsrv])
  · exact ⟨decodeEvent e.time r, by simp [hsrv], rfl⟩
  · next hco => exact absurd hco.2 (by simp [hsrv])
  · exact ⟨decodeEvent e.time r, by simp [hsrv], rfl⟩

theorem filter_decode_of_map_decodeEvent (t : ℚ) (l : List Request) :
    (l.map (decodeEvent t)).filter
      (fun x => decide (x.event_type = EngineEventType.DECODE_STEP))
      = l.map (decodeEvent t) := by
  apply List.filter_eq_self.mpr
  intro a ha
  rcases List.mem_map.mp ha with ⟨q, hq, rfl⟩
  simp [decodeEvent]

theorem filter_decode_of_completions (t : ℚ) (l : List Request) :
    ((l.map (fun r =>
        ({ event_type := EngineEventType.REQUEST_COMPLETED,
           time := t,
           request_id := r.request_id } : EngineEvent))).filter
      (fun x => decide (x.event_type = EngineEventType.DECODE_STEP))) = [] := by
  apply List.filter_eq_nil_iff.mpr
  intro a ha
  rcases List.mem_map.mp ha with ⟨q, hq, rfl⟩
  simp

theorem step_prefill_budget (e : Engine) :
    ∀ ev ∈ (e.step).1, ev.event_type = EngineEventType.PREFILL_CHUNK_STARTED →
      ∃ L, ev.chunk_len = some L ∧
        L + (((e.step).1.filter
          (fun x => decide (x.event_type = EngineEventType.DECODE_STEP))).length : ℤ)
          ≤ e.max_num_batched_tokens := by
  unfold Engine.step
  rcases hpr : e.prefillResult with ⟨pr, ePre⟩
  rcases pr with _ | ⟨cl, evs, c⟩ <;> dsimp only <;> split
  · intro ev hev
    exact absurd hev (List.not_mem_nil ev)
  · intro ev hev htype
    exfalso
    rcases List.mem_append.mp hev with h1 | hcomp
    · rcases List.mem_append.mp h1 with hdec | hmid
      · rcases List.mem_map.mp hdec with ⟨q, hq, rfl⟩
        exact absurd htype (by simp [decodeEvent])
      · exact absurd hmid (List.not_mem_nil ev)
    · rcases List.mem_map.mp hcomp with ⟨q, hq, rfl⟩
      simp at htype
  · intro ev hev
    exact absurd hev (List.not_mem_nil ev)
  · have hps : (e.prefillResult).1 = some (cl, evs, c) := by rw [hpr]
    obtain ⟨hbound, hevfacts⟩ := prefillResult_some e cl evs c hps
    have hmid : evs.filter
        (fun x => decide (x.event_type = EngineEventType.DECODE_STEP)) = [] := by
      apply List.filter_eq_nil_iff.mpr
      intro a ha
      rcases (hevfacts a ha).2 with h | h <;> simp [h]
    intro ev hev htype
    rw [List.filter_append, List.filter_append, filter_decode_of_map_decodeEvent,
      hmid, filter_decode_of_completions, List.append_nil, List.append_nil,
      List.length_map]
    rcases List.mem_append.mp hev with h1 | hcomp
    · rcases List.mem_append.mp h1 with hdec | hmid2
      · rcases List.mem_map.mp hdec with ⟨q, hq, rfl⟩
        exact absurd htype (by simp [decodeEvent])
      · exact ⟨cl, (hevfacts ev hmid2).1, by omega⟩
    · rcases List.mem_map.mp hcomp with ⟨q, hq, rfl⟩
      simp at htype

theorem lookupD_cons (k x : String) (w : ℚ) (rest : List (String × ℚ)) :
    counterD ((k, w) :: rest) x = if x = k then w else counterD rest x := by
  by_cases hxk : x = k
  · subst hxk
    simp [counterD, List.lookup]
  · rw [if_neg hxk]
    unfold counterD
    rw [List.lookup]
    rw [show (x == k) = false from beq_eq_false_iff_ne.mpr hxk]

theorem counterD_setCounter (c : List (String × ℚ)) (u : String) (v : ℚ) (x : String) :
    counterD (setCounter c u v) x = if x = u then v else counterD c x := by
  induction c with
  | nil =>
    rw [show setCounter [] u v = [(u, v)] from rfl, lookupD_cons]
  | cons kv rest ih =>
    rcases kv with ⟨k, w⟩
    unfold setCounter
    by_cases hk : k = u
    · rw [if_pos hk, lookupD_cons, lookupD_cons, hk]
      by_cases hxu : x = u
      · rw [if_pos hxu, if_pos hxu]
      · rw [if_neg hxu, if_neg hxu, if_neg hxu]
    · rw [if_neg hk, lookupD_cons, ih, lookupD_cons]
      by_cases hxk : x = k
      · have hxu : ¬ x = u := fun h => hk (hxk.symm.trans h)
        rw [if_pos hxk, if_neg hxu, if_pos hxk]
      · rw [if_neg hxk, if_neg hxk]

theorem lookup_mem_int {β : Type} (d : List (ℤ × β)) (k : ℤ) (v : β)
    (h : d.lookup k = some v) : (k, v) ∈ d := by
  induction d with
  | nil => simp [List.lookup] at h
  | cons p rest ih =>
    rcases p with ⟨k', w⟩
    rw [List.lookup] at h
    split at h
    · next heq =>
      have hk : k = k' := beq_iff_eq.mp heq
      injection h with hwv
      subst hwv
      rw [hk]
      exact List.mem_cons_self _ _
    · exact List.mem_cons_of_mem _ (ih h)

theorem pyGet_nonneg (d : List (ℤ × ℤ)) (k dflt : ℤ)
    (hd : ∀ p ∈ d, 0 ≤ p.2) (h0 : 0 ≤ dflt) : 0 ≤ pyGet d k dflt := by
  unfold pyGet
  rcases hl : d.lookup k with _ | v
  · simpa using h0
  · simpa using hd _ (lookup_mem_int d k v hl)

theorem stage_weight_nonneg (app : Application) (stage : InteractionStage)
    (alpha beta gamma : ℚ) (ha : 0 ≤ alpha) (hb : 0 ≤ beta) (hg : 0 ≤ gamma)
    (happ : appNonneg app) : 0 ≤ app.stage_weight stage alpha beta gamma := by
  obtain ⟨h1, h2, h3⟩ := happ
  unfold Application.stage_weight
  have n1 : (0 : ℚ) ≤ (pyGet app.expected_input_tokens stage.value 1 : ℚ) := by
    exact_mod_cast pyGet_nonneg _ _ _ h1 (by norm_num)
  have n2 : (0 : ℚ) ≤ (pyGet app.expected_system_tokens stage.value 0 : ℚ) := by
    exact_mod_cast pyGet_nonneg _ _ _ h2 (by norm_num)
  have n3 : (0 : ℚ) ≤ (pyGet app.expected_output_tokens stage.value 1 : ℚ) := by
    exact_mod_cast pyGet_nonneg _ _ _ h3 (by norm_num)
  have := mul_nonneg ha n1
  have := mul_nonneg hb n2
  have := mul_nonneg hg n3
  dsimp only
  linarith

theorem vtc_arrival_mono (st : VTCState) (r : Request) (u : String) :
    counterD st.counters u ≤ counterD (st.on_request_arrival r).counters u := by
  unfold VTCState.on_request_arrival
  split_ifs with hlift
  · rcases hc : st.counters with _ | ⟨p, rest⟩
    · simp [hc]
    · simp only [hc, List.map_cons]
      rw [counterD_setCounter]
      by_cases hu : u = r.user.user_id
      · rw [if_pos hu, ← hu, ← hc]
        exact le_max_left _ _
      · rw [if_neg hu, ← hc]
  · exact le_refl _

theorem vtc_prefill_mono (st : VTCState) (r : Request) (u : String)
    (hwp : 0 ≤ st.w_p) (hin : 0 ≤ r.input_tokens) (hsys : 0 ≤ r.system_tokens) :
    counterD st.counters u ≤ counterD (st.on_prefill_added r).counters u := by
  unfold VTCState.on_prefill_added
  dsimp only
  rw [counterD_setCounter]
  by_cases hu : u = r.user.user_id
  · rw [if_pos hu, hu]
    have hpos : (0 : ℚ) ≤ st.w_p * ((r.input_tokens + r.system_tokens : ℤ) : ℚ) := by
      apply mul_nonneg hwp
      exact_mod_cast add_nonneg hin hsys
    linarith
  · rw [if_neg hu]

theorem vtc_decode_mono :
    ∀ (served : List Request) (st : VTCState) (u : String), 0 ≤ st.w_q →
      counterD st.counters u ≤ counterD (st.on_decode_iteration served).counters u := by
  intro served
  induction served with
  | nil => intro st u _; exact le_refl _
  | cons r rest ih =>
    intro st u hw
    rw [VTCState.on_decode_iteration, List.foldl_cons]
    refine le_trans ?_ (ih _ u hw)
    dsimp only
    rw [counterD_setCounter]
    by_cases hu : u = r.user.user_id
    · rw [if_pos hu, hu]
      linarith
    · rw [if_neg hu]

theorem fs_arrival_mono (st : FSState) (r : Request) (u : String) :
    counterD st.service u ≤ counterD (st.on_request_arrival r).service u := by
  unfold FSState.on_request_arrival
  split_ifs with hlift
  · rcases hc : st.service with _ | ⟨p, rest⟩
    · simp [hc]
    · simp only [hc]
      rw [counterD_setCounter]
      by_cases hu : u = r.user.user_id
      · rw [if_pos hu, ← hu, ← hc]
        exact le_max_left _ _
      · rw [if_neg hu, ← hc]
  · exact le_refl _

theorem fs_prefill_mono (st : FSState) (r : Request) (u : String)
    (ha : 0 ≤ st.alpha) (hb : 0 ≤ st.beta) (hg : 0 ≤ st.gamma)
    (hp : 0 ≤ r.user.priority) (hin : 0 ≤ r.input_tokens) (hsys : 0 ≤ r.system_tokens)
    (happ : appNonneg r.application) :
    counterD st.service u ≤ counterD (st.on_prefill_added r).service u := by
  unfold FSState.on_prefill_added
  dsimp only
  rw [counterD_setCounter]
  by_cases hu : u = r.user.user_id
  · rw [if_pos hu, hu]
    have hnum : (0 : ℚ) ≤ r.user.priority *
        (st.alpha * ((r.input_tokens : ℤ) : ℚ) + st.beta * ((r.system_tokens : ℤ) : ℚ)) := by
      apply mul_nonneg hp
      have c1 : (0 : ℚ) ≤ ((r.input_tokens : ℤ) : ℚ) := by exact_mod_cast hin
      have c2 : (0 : ℚ) ≤ ((r.system_tokens : ℤ) : ℚ) := by exact_mod_cast hsys
      have := mul_nonneg ha c1
      have := mul_nonneg hb c2
      linarith
    have hw : 0 ≤ st.weight r := stage_weight_nonneg _ _ _ _ _ ha hb hg happ
    have : 0 ≤ r.user.priority *
        (st.alpha * ((r.input_tokens : ℤ) : ℚ) + st.beta * ((r.system_tokens : ℤ) : ℚ)) / st.weight r :=
      div_nonneg hnum hw
    linarith
  · rw [if_neg hu]

theorem fs_decode_mono :
    ∀ (served : List Request) (st : FSState) (u : String),
      0 ≤ st.alpha → 0 ≤ st.beta → 0 ≤ st.gamma →
      (∀ r ∈ served, 0 ≤ r.user.priority ∧ appNonneg r.application) →
      counterD st.service u ≤ counterD (st.on_decode_iteration served).service u := by
  intro served
  induction served with
  | nil => intro st u _ _ _ _; exact le_refl _
  | cons r rest ih =>
    intro st u ha hb hg hall
    rw [FSState.on_decode_iteration, List.foldl_cons]
    refine le_trans ?_ (ih _ u ha hb hg (fun q hq => hall q (List.mem_cons_of_mem _ hq)))
    dsimp only
    rw [counterD_setCounter]
    by_cases hu : u = r.user.user_id
    · rw [if_pos hu, hu]
      obtain ⟨hp, happ⟩ := hall r (List.mem_cons_self _ _)
      have hw : 0 ≤ st.weight r := stage_weight_nonneg _ _ _ _ _ ha hb hg happ
      have : 0 ≤ r.user.priority * st.gamma / st.weight r :=
        div_nonneg (mul_nonneg hp hg) hw
      linarith
    · rw [if_neg hu]

theorem vtc_lift_eq (st : VTCState) (r : Request) (hl : st.counter_lift = true)
    (p0 : String × ℚ) (rest0 : List (String × ℚ)) (hne : st.counters = p0 :: rest0) :
    counterD (st.on_request_arrival r).counters r.user.user_id
      = max (counterD st.counters r.user.user_id)
          (listMin (st.counters.map Prod.snd)) := by
  unfold VTCState.on_request_arrival
  rw [if_pos hl]
  simp only [hne, List.map_cons]
  rw [counterD_setCounter, if_pos rfl]

theorem lookup_append_single {β : Type} (acc : List (String × β)) (k : String) (r : β)
    (u : String) :
    (acc ++ [(k, r)]).lookup u = (acc.lookup u).or (if u == k then some r else none) := by
  induction acc with
  | nil =>
    cases hbeq : u == k <;> simp [List.lookup, hbeq, Option.or]
  | cons p rest ih =>
    rcases p with ⟨k', v⟩
    rw [List.cons_append, List.lookup, List.lookup]
    cases hbeq : u == k' <;> simp [ih, Option.or]

theorem headRequestOf_cons (r : Request) (rs : List Request) (u : String) :
    headRequestOf (r :: rs) u
      = if r.user.user_id = u then some r else headRequestOf rs u := by
  unfold headRequestOf
  rw [List.find?]
  by_cases h : r.user.user_id = u <;> simp [h]

theorem buildWBU_lookup_aux :
    ∀ (w : List Request) (acc : List (String × Request)) (u : String),
      (w.foldl (fun acc r =>
          if (acc.lookup r.user.user_id).isSome then acc
          else acc ++ [(r.user.user_id, r)]) acc).lookup u
        = (acc.lookup u).or (headRequestOf w u) := by
  intro w
  induction w with
  | nil =>
    intro acc u
    rw [List.foldl_nil]
    unfold headRequestOf
    rw [List.find?]
    cases acc.lookup u <;> simp [Option.or]
  | cons r w' ih =>
    intro acc u
    rw [List.foldl_cons]
    by_cases hs : (acc.lookup r.user.user_id).isSome
    · rw [if_pos hs, ih, headRequestOf_cons]
      by_cases hu : r.user.user_id = u
      · subst hu
        rw [if_pos rfl]
        rcases hl : acc.lookup r.user.user_id with _ | v
        · rw [hl] at hs; exact absurd hs (by simp)
        · simp [Option.or]
      · rw [if_neg hu]
    · rw [if_neg hs, ih, lookup_append_single, headRequestOf_cons]
      by_cases hu : r.user.user_id = u
      · subst hu
        rw [if_pos rfl, show (r.user.user_id == r.user.user_id) = true from beq_self_eq_true _]
        rcases hl : acc.lookup r.user.user_id with _ | v
        · simp [Option.or]
        · rw [hl] at hs; exact absurd (by simp) hs
      · rw [if_neg hu, show (u == r.user.user_id) = false from
          beq_eq_false_iff_ne.mpr (fun h => hu h.symm)]
        rcases acc.lookup u with _ | v <;> simp [Option.or]

theorem buildWBU_lookup (w : List Request) (u : String) :
    (buildWaitingByUser w).lookup u = headRequestOf w u := by
  unfold buildWaitingByUser
  rw [buildWBU_lookup_aux]
  simp [Option.or, List.lookup]

theorem buildWBU_keys_aux :
    ∀ (w : List Request) (acc : List (String × Request)),
      (w.foldl (fun acc r =>
          if (acc.lookup r.user.user_id).isSome then acc
          else acc ++ [(r.user.user_id, r)]) acc).map Prod.fst
        = acc.map Prod.fst ++ (firstUsers w).filter (fun u => (acc.lookup u).isNone) := by
  intro w
  induction w with
  | nil =>
    intro acc
    simp [firstUsers]
  | cons r w' ih =>
    intro acc
    rw [List.foldl_cons]
    by_cases hs : (acc.lookup r.user.user_id).isSome
    · rw [if_pos hs, ih]
      have hfalse : (acc.lookup r.user.user_id).isNone = false := by
        rcases h : acc.lookup r.user.user_id with _ | v
        · rw [h] at hs; simp at hs
        · simp
      rw [firstUsers, List.filter_cons]
      rw [hfalse]
      simp only [Bool.false_eq_true, if_false]
      rw [List.filter_filter]
      congr 1
      apply List.filter_congr
      intro u hu
      by_cases hn : (acc.lookup u).isNone = true
      · have hne : u ≠ r.user.user_id := by
          intro he
          rw [he, hfalse] at hn
          exact Bool.false_ne_true hn
        simp [hn, hne]
      · simp only [Bool.not_eq_true] at hn
        simp [hn]
    · rw [if_neg hs, ih]
      have htrue : (acc.lookup r.user.user_id).isNone = true := by
        rcases h : acc.lookup r.user.user_id with _ | v
        · simp
        · rw [h] at hs; simp at hs
      rw [firstUsers, List.filter_cons, htrue]
      simp only [if_true]
      rw [List.filter_filter, List.map_append]
      have hptw : ∀ u ∈ firstUsers w',
          ((acc ++ [(r.user.user_id, r)]).lookup u).isNone
            = ((acc.lookup u).isNone && decide (u ≠ r.user.user_id)) := by
        intro u hu
        rw [lookup_append_single]
        by_cases hue : u = r.user.user_id
        · rw [show (u == r.user.user_id) = true from beq_iff_eq.mpr hue]
          rcases acc.lookup u with _ | v <;> simp [Option.or, hue]
        · rw [show (u == r.user.user_id) = false from beq_eq_false_iff_ne.mpr hue]
          rcases acc.lookup u with _ | v <;> simp [Option.or, hue]
      rw [List.filter_congr hptw]
      simp only [List.map_cons, List.map_nil]
      rw [List.append_assoc]
      congr 1

theorem buildWBU_keys (w : List Request) :
    (buildWaitingByUser w).map Prod.fst = firstUsers w := by
  unfold buildWaitingByUser
  rw [buildWBU_keys_aux]
  simp [List.lookup]

theorem vtc_loop_queue_eq (counters : List (String × ℚ)) (cap mb : ℤ) :
    ∀ (fuel : ℕ) (w : List Request) (kv : ℤ) (selected : List Request),
      (vtcSelectAux counters cap mb fuel w kv selected).1
        = vtcSelectQueueAux counters cap mb fuel w kv selected := by
  intro fuel
  induction fuel with
  | zero => intro w kv selected; rfl
  | succ n ih =>
    intro w kv selected
    simp only [vtcSelectAux, vtcSelectQueueAux]
    split_ifs with hguard
    · rw [buildWBU_keys w]
      cases hmin : argminKey (counterD counters) (firstUsers w) with
      | none => rfl
      | some uid =>
        dsimp only
        rw [buildWBU_lookup w uid]
        cases hlook : headRequestOf w uid with
        | none => rfl
        | some cand =>
          dsimp only
          split_ifs with hcap
          · rfl
          · exact ih (w.erase cand) _ _
    · rfl

theorem argminFold_mem (f : String → ℚ) :
    ∀ (ks : List String) (k : String),
      ks.foldl (fun best c => if f c < f best then c else best) k ∈ k :: ks := by
  intro ks
  induction ks with
  | nil => intro k; exact List.mem_cons_self _ _
  | cons c cs ih =>
    intro k
    rw [List.foldl_cons]
    rcases List.mem_cons.mp (ih (if f c < f k then c else k)) with h | h
    · rw [h]
      split_ifs
      · exact List.mem_cons_of_mem _ (List.mem_cons_self _ _)
      · exact List.mem_cons_self _ _
    · exact List.mem_cons_of_mem _ (List.mem_cons_of_mem _ h)

theorem argminKey_mem (f : String → ℚ) :
    ∀ (us : List String) (u : String), argminKey f us = some u → u ∈ us := by
  intro us u h
  rcases us with _ | ⟨k, ks⟩
  · simp [argminKey] at h
  · rw [argminKey] at h
    injection h with h'
    rw [← h']
    exact argminFold_mem f ks k

theorem lookup_isSome_of_key_mem {β : Type} :
    ∀ (l : List (String × β)) (u : String), u ∈ l.map Prod.fst →
      ∃ v, l.lookup u = some v := by
  intro l
  induction l with
  | nil => intro u h; simp at h
  | cons p rest ih =>
    rcases p with ⟨k, w⟩
    intro u h
    by_cases hk : u = k
    · exact ⟨w, by rw [List.lookup, show (u == k) = true from beq_iff_eq.mpr hk]⟩
    · have h' : u ∈ rest.map Prod.fst := by
        rcases List.mem_cons.mp h with h0 | h0
        · exact absurd h0 hk
        · exact h0
      obtain ⟨v, hv⟩ := ih u h'
      exact ⟨v, by
        rw [List.lookup, show (u == k) = false from beq_eq_false_iff_ne.mpr hk]
        exact hv⟩

theorem fsSelectAux_prefix (service : List (String × ℚ)) (cap mb : ℤ) :
    ∀ (fuel : ℕ) (ready : List (String × Interaction)) (w : List Request)
      (ints : List (ℤ × Interaction)) (kv : ℤ) (selected : List Request),
      ∃ rest, (fsSelectAux service cap mb fuel ready w ints kv selected).1
        = selected ++ rest := by
  intro fuel
  induction fuel with
  | zero => intro ready w ints kv selected; exact ⟨[], by simp [fsSelectAux]⟩
  | succ n ih =>
    intro ready w ints kv selected
    simp only [fsSelectAux]
    split_ifs with hguard
    · rcases ready with _ | ⟨p, rs⟩
      · rcases w with _ | ⟨q, qs⟩
        · exact ⟨[], by simp⟩
        · dsimp only
          cases hmin : argminKey (counterD service)
              ((buildWaitingByUser (q :: qs)).map Prod.fst) with
          | none => exact ⟨[], by simp⟩
          | some uid =>
            dsimp only
            cases hlook : (buildWaitingByUser (q :: qs)).lookup uid with
            | none => exact ⟨[], by simp⟩
            | some cand =>
              dsimp only
              split_ifs with hcap
              · exact ⟨[], by simp⟩
              · obtain ⟨rest, hr⟩ := ih [] ((q :: qs).erase cand) ints
                  (kv + (cand.input_tokens + cand.system_tokens)) (selected ++ [cand])
                exact ⟨cand :: rest, by rw [hr]; simp⟩
      · dsimp only
        cases hmin : argminKey (counterD service) (((p :: rs)).map Prod.fst) with
        | none => exact ⟨[], by simp⟩
        | some uid =>
          dsimp only
          cases hlook : ((p :: rs) : List (String × Interaction)).lookup uid with
          | none => exact ⟨[], by simp⟩
          | some inter =>
            dsimp only
            cases hget : inter.requests.get? inter.next_index with
            | none => exact ⟨[], by simp⟩
            | some req =>
              dsimp only
              split_ifs with hcap
              · obtain ⟨rest, hr⟩ := ih (popKey (p :: rs) uid) w
                  (updateInteraction ints inter.interaction_id
                    { inter with next_index := inter.next_index + 1 })
                  (kv + (req.input_tokens + req.system_tokens)) (selected ++ [req])
                exact ⟨req :: rest, by rw [hr]; simp⟩
              · exact ⟨[], by simp⟩
    · exact ⟨[], by simp⟩

theorem fsSelectAux_waiting_sub (service : List (String × ℚ)) (cap mb : ℤ) :
    ∀ (fuel : ℕ) (w : List Request) (ints : List (ℤ × Interaction)) (kv : ℤ)
      (selected w0 : List Request),
      (∀ r ∈ selected, r ∈ w0) → (∀ r ∈ w, r ∈ w0) →
      ∀ r ∈ (fsSelectAux service cap mb fuel [] w ints kv selected).1, r ∈ w0 := by
  intro fuel
  induction fuel with
  | zero =>
    intro w ints kv selected w0 hsel hw r hr
    exact hsel r (by simpa [fsSelectAux] using hr)
  | succ n ih =>
    intro w ints kv selected w0 hsel hw
    simp only [fsSelectAux]
    split_ifs with hguard
    · rcases w with _ | ⟨q, qs⟩
      · exact fun r hr => hsel r hr
      · dsimp only
        cases hmin : argminKey (counterD service)
            ((buildWaitingByUser (q :: qs)).map Prod.fst) with
        | none => exact fun r hr => hsel r hr
        | some uid =>
          dsimp only
          cases hlook : (buildWaitingByUser (q :: qs)).lookup uid with
          | none => exact fun r hr => hsel r hr
          | some cand =>
            dsimp only
            split_ifs with hcap
            · exact fun r hr => hsel r hr
            · have hcand : cand ∈ q :: qs := by
                rw [buildWBU_lookup] at hlook
                exact List.mem_of_find?_eq_some hlook
              apply ih ((q :: qs).erase cand) ints
                (kv + (cand.input_tokens + cand.system_tokens)) (selected ++ [cand]) w0
              · intro r hr
                rcases List.mem_append.mp hr with h | h
                · exact hsel r h
                · rcases List.mem_singleton.mp h with rfl
                  exact hw _ hcand
              · intro r hr
                exact hw r (List.mem_of_mem_erase hr)
    · exact fun r hr => hsel r hr

theorem fs_select_waiting_only (st : FSState) (waiting : List Request)
    (interactions : List (ℤ × Interaction)) (kv cap mb : ℤ)
    (hready : buildReadyUsers (readyInteractions interactions) = []) :
    ∀ r ∈ (st.select_next_requests waiting interactions kv cap mb).1, r ∈ waiting := by
  simp only [FSState.select_next_requests]
  rw [hready]
  exact fsSelectAux_waiting_sub st.service cap mb _ waiting interactions kv [] waiting
    (fun r hr => absurd hr (List.not_mem_nil r)) (fun r hr => hr)

theorem fs_select_head (st : FSState) (waiting : List Request)
    (interactions : List (ℤ × Interaction)) (kv cap mb : ℤ)
    (p : String × Interaction) (rs : List (String × Interaction))
    (uid : String) (inter : Interaction) (req : Request)
    (hr : buildReadyUsers (readyInteractions interactions) = p :: rs)
    (hargmin : argminKey (counterD st.service) ((p :: rs).map Prod.fst) = some uid)
    (hlook : ((p :: rs) : List (String × Interaction)).lookup uid = some inter)
    (hget : inter.requests.get? inter.next_index = some req) :
    (st.select_next_requests waiting interactions kv cap mb).1 = []
    ∨ ((st.select_next_requests waiting interactions kv cap mb).1).head? = some req := by
  simp only [FSState.select_next_requests]
  rw [hr, List.length_cons, Nat.add_right_comm]
  simp only [fsSelectAux]
  split_ifs with hguard
  · try dsimp only
    rw [hargmin]
    try dsimp only
    rw [hlook]
    try dsimp only
    rw [hget]
    try dsimp only
    split_ifs with hcap
    · right
      obtain ⟨rest, hrr⟩ := fsSelectAux_prefix st.service cap mb
        (rs.length + waiting.length) (popKey (p :: rs) uid) waiting
        (updateInteraction interactions inter.interaction_id
          { inter with next_index := inter.next_index + 1 })
        (kv + (req.input_tokens + req.system_tokens)) ([] ++ [req])
      rw [hrr]
      simp
    · left; rfl
  · left; rfl

theorem fs_select_nil_of_get_none (st : FSState) (waiting : List Request)
    (interactions : List (ℤ × Interaction)) (kv cap mb : ℤ)
    (p : String × Interaction) (rs : List (String × Interaction))
    (uid : String) (inter : Interaction)
    (hr : buildReadyUsers (readyInteractions interactions) = p :: rs)
    (hargmin : argminKey (counterD st.service) ((p :: rs).map Prod.fst) = some uid)
    (hlook : ((p :: rs) : List (String × Interaction)).lookup uid = some inter)
    (hget : inter.requests.get? inter.next_index = none) :
    (st.select_next_requests waiting interactions kv cap mb).1 = [] := by
  simp only [FSState.select_next_requests]
  rw [hr, List.length_cons, Nat.add_right_comm]
  simp only [fsSelectAux]
  split_ifs with hguard
  · try dsimp only
    rw [hargmin]
    try dsimp only
    rw [hlook]
    try dsimp only
    rw [hget]
  · rfl

/-! ## Claims -/

/-- C1: on every simulator tick the admit phase calls the scheduler's
select_next_requests with the waiting queue, the live interactions map, an
engine state snapshot and the max_to_release cap (= max_batch), and submits
exactly the returned request list to the engine, keeping the returned
waiting queue and scheduler state. -/
theorem admit_phase_submits_selected {σ : Type} (s : Simulator σ) :
    s.admit_to_engine.engine.pending_prefill
      = s.engine.pending_prefill ++
        (s.sched.select_next_requests s.schedState s.waiting s.interactions
          s.engine.get_state_snapshot s.max_batch).1 ∧
    s.admit_to_engine.waiting
      = (s.sched.select_next_requests s.schedState s.waiting s.interactions
          s.engine.get_state_snapshot s.max_batch).2.1 ∧
    s.admit_to_engine.schedState
      = (s.sched.select_next_requests s.schedState s.waiting s.interactions
          s.engine.get_state_snapshot s.max_batch).2.2 := by
  rcases hsel : s.sched.select_next_requests s.schedState s.waiting s.interactions
      s.engine.get_state_snapshot s.max_batch with ⟨sel, w', st'⟩
  refine ⟨?_, ?_, ?_⟩ <;>
    simp [Simulator.admit_to_engine, hsel, foldl_submit_pending]

/-- C2 counterexample: an engine at full KV capacity (kv_tokens = 10 =
max_kv_tokens) with one live decode performs a decode step that raises
kv_tokens to 11 > max_kv_tokens, so the claimed invariant
kv_tokens ≤ max_kv_tokens fails after a decode step. -/
theorem kv_cap_violated_by_decode :
    engOver.kv_tokens = 10 ∧ engOver.max_kv_tokens = 10 ∧
    (engOver.step).2.kv_tokens = 11 ∧
    ¬ ((engOver.step).2.kv_tokens ≤ (engOver.step).2.max_kv_tokens) := by
  have h : (engOver.step).2.kv_tokens = 11 := by
    simp [Engine.step, Engine.decodeCandidates, Engine.decodeTake, Engine.decodeUpdated,
      Engine.decodeServed, Engine.afterDecode, Engine.decodeCost, Engine.prefillResult,
      engOver, reqD, mkRequest, decodeServe, decodeEvent, uA, appT,
      Engine.maybe_start_prefill, Engine.decode_time, Engine.prefill_time]
  have hmax : (engOver.step).2.max_kv_tokens = 10 := by
    simp [Engine.step, Engine.decodeCandidates, Engine.decodeTake, Engine.decodeUpdated,
      Engine.decodeServed, Engine.afterDecode, Engine.decodeCost, Engine.prefillResult,
      engOver, reqD, mkRequest, decodeServe, decodeEvent, uA, appT,
      Engine.maybe_start_prefill, Engine.decode_time, Engine.prefill_time]
  refine ⟨rfl, rfl, h, ?_⟩
  rw [h, hmax]
  decide

/-- C2 amended: kv_tokens never decreases (so it stays ≥ 0), and a new
prefill is admitted only when the current kv_tokens plus its full prompt
footprint fits max_kv_tokens (a blocked head leaves the engine untouched);
but decode steps add KV tokens with no capacity check, so the upper bound
kv_tokens ≤ max_kv_tokens does not hold after decode steps (see the
counterexample). -/
theorem kv_lower_bound_and_prefill_guard :
    (∀ e : Engine, 0 ≤ e.kv_tokens → 0 ≤ (e.step).2.kv_tokens) ∧
    (∀ (e : Engine) (r : Request), 0 ≤ e.kv_tokens → 0 ≤ (e.submit_request r).kv_tokens) ∧
    (∀ (e : Engine) (b : ℤ) (c : Request) (rest : List Request),
      e.active_prefill = none → e.pending_prefill = c :: rest →
      e.max_kv_tokens < e.kv_tokens + (c.input_tokens + c.system_tokens) →
      e.maybe_start_prefill b = (none, e)) := by
  refine ⟨?_, ?_, ?_⟩
  · intro e h
    exact le_trans h (step_kv_mono e)
  · intro e r h
    exact h
  · intro e b c rest hap hpp hblock
    exact maybe_blocked_noop e b c rest hap hpp hblock

/-- C2 amended witness: the lower bound is preserved over a concrete step,
and the concrete blocked engine admits nothing. -/
theorem kv_lower_bound_and_prefill_guard_witness :
    (0 ≤ engOver.kv_tokens ∧ 0 ≤ (engOver.step).2.kv_tokens) ∧
    (engBlocked.active_prefill = none ∧ engBlocked.pending_prefill = [reqBig] ∧
      engBlocked.max_kv_tokens < engBlocked.kv_tokens +
        (reqBig.input_tokens + reqBig.system_tokens) ∧
      engBlocked.maybe_start_prefill 4 = (none, engBlocked)) :=
  ⟨⟨by decide, kv_lower_bound_and_prefill_guard.1 engOver (by decide)⟩,
   ⟨rfl, rfl, by decide,
    kv_lower_bound_and_prefill_guard.2.2 engBlocked 4 reqBig [] rfl rfl (by decide)⟩⟩

/-- C10: the engine's kv counter is monotone across submit_request and
step (request completion releases nothing), and a prefill blocked on
capacity at the head of pending_prefill stays at the head, still blocked,
after any step. -/
theorem kv_monotone_blocked_head_persists :
    (∀ (e : Engine) (r : Request), (e.submit_request r).kv_tokens = e.kv_tokens) ∧
    (∀ e : Engine, e.kv_tokens ≤ (e.step).2.kv_tokens) ∧
    (∀ (e : Engine) (c : Request) (rest : List Request),
      e.pending_prefill = c :: rest →
      e.max_kv_tokens < e.kv_tokens + (c.input_tokens + c.system_tokens) →
      (e.step).2.pending_prefill = e.pending_prefill ∧
      (e.step).2.max_kv_tokens <
        (e.step).2.kv_tokens + (c.input_tokens + c.system_tokens)) := by
  refine ⟨fun e r => rfl, step_kv_mono, ?_⟩
  intro e c rest hpp hblock
  constructor
  · rw [step_pending_eq]
    exact prefillResult_pending_blocked e c rest hpp hblock
  · have h1 := step_kv_mono e
    have h2 := step_max_eq e
    omega

/-- C10 witness: the blocked 900-token head of the concrete engine survives
a step, still blocked. -/
theorem kv_monotone_blocked_head_persists_witness :
    engBlocked.pending_prefill = [reqBig] ∧
    engBlocked.max_kv_tokens < engBlocked.kv_tokens +
      (reqBig.input_tokens + reqBig.system_tokens) ∧
    ((engBlocked.step).2.pending_prefill = engBlocked.pending_prefill ∧
      (engBlocked.step).2.max_kv_tokens <
        (engBlocked.step).2.kv_tokens + (reqBig.input_tokens + reqBig.system_tokens)) :=
  ⟨rfl, by decide,
    kv_monotone_blocked_head_persists.2.2 engBlocked reqBig [] rfl (by decide)⟩

/-- C3: the WSC scheduler of src releases a stage-1 request to the engine
while the same interaction's stage-0 request is still in the waiting queue
and uncompleted (it even selects the stage-1 request first), violating the
stage-ordering invariant. -/
theorem stage_order_violated_by_wsc :
    (({} : FSState).select_next_requests [reqP] [(7, interPC)] 0 1000 4).1
      = [reqC, reqP] ∧
    reqC.stage = InteractionStage.AGENT_1 ∧
    reqP.stage = InteractionStage.USER_PROMPT ∧
    reqC.interaction_id = 7 ∧ reqP.interaction_id = 7 ∧
    reqP.completion_time = none ∧
    interPC.requests = [reqP, reqC] := by decide

/-- C4 counterexample: spec scenario 6.  Waiting holds a's USER_PROMPT and
b's AGENT_1 continuation, all service counters are equal, yet WSC admits a's
USER_PROMPT first (the waiting-queue pool is keyed by queue order, and the
primary pool is built from the interactions map, which offers nothing here),
not b's continuation. -/
theorem wsc_scenario6_admits_prompt_first :
    ((({} : FSState).select_next_requests [reqPa, reqCb]
        [(8, interA1), (9, interB1)] 0 1000 1).1 = [reqPa]) ∧
    reqPa.stage = InteractionStage.USER_PROMPT ∧
    reqCb.stage = InteractionStage.AGENT_1 ∧
    reqPa.user.user_id = "a" ∧ reqCb.user.user_id = "b" ∧
    counterD ({} : FSState).service "a" = counterD ({} : FSState).service "b" := by
  decide

/-- C4 amended: WSC's primary candidate pool is not drawn from the waiting
queue: it consists of the next pending request (requests[next_index]) of
each incomplete interaction in the interactions map, regardless of that
request's stage; the waiting queue (whatever the stages of its requests) is
consulted only when that pool is empty.  When the pool is non-empty, the
first admitted request is the pending next request of the interaction of the
minimum-service ready user. -/
theorem wsc_primary_pool_characterization :
    (∀ (st : FSState) (waiting : List Request)
       (interactions : List (ℤ × Interaction)) (kv cap mb : ℤ),
      buildReadyUsers (readyInteractions interactions) = [] →
      ∀ r ∈ (st.select_next_requests waiting interactions kv cap mb).1, r ∈ waiting) ∧
    (∀ (st : FSState) (waiting : List Request)
       (interactions : List (ℤ × Interaction)) (kv cap mb : ℤ),
      buildReadyUsers (readyInteractions interactions) ≠ [] →
      (st.select_next_requests waiting interactions kv cap mb).1 ≠ [] →
      ∃ uid inter req,
        argminKey (counterD st.service)
          ((buildReadyUsers (readyInteractions interactions)).map Prod.fst) = some uid ∧
        (buildReadyUsers (readyInteractions interactions)).lookup uid = some inter ∧
        inter.requests.get? inter.next_index = some req ∧
        ((st.select_next_requests waiting interactions kv cap mb).1).head? = some req) := by
  constructor
  · exact fun st w i kv cap mb h => fs_select_waiting_only st w i kv cap mb h
  · intro st waiting interactions kv cap mb hready hsel
    obtain ⟨p, rs, hr⟩ := List.exists_cons_of_ne_nil hready
    rcases hargmin : argminKey (counterD st.service) ((p :: rs).map Prod.fst) with _ | uid
    · rw [List.map_cons, argminKey] at hargmin
      exact Option.noConfusion hargmin
    · have humem : uid ∈ (p :: rs).map Prod.fst := argminKey_mem _ _ _ hargmin
      obtain ⟨inter, hlook⟩ := lookup_isSome_of_key_mem _ uid humem
      rcases hget : inter.requests.get? inter.next_index with _ | req
      · exact absurd (fs_select_nil_of_get_none st waiting interactions kv cap mb
          p rs uid inter hr hargmin hlook hget) hsel
      · rcases fs_select_head st waiting interactions kv cap mb p rs uid inter req
            hr hargmin hlook hget with hnil | hhead
        · exact absurd hnil hsel
        · exact ⟨uid, inter, req, by rw [hr]; exact hargmin, by rw [hr]; exact hlook,
            hget, hhead⟩

/-- C4 amended witness: with a's interaction offering a pending FINAL
request, the pool is non-empty and the first admitted request is that
pending request, although the waiting queue holds a USER_PROMPT and an
AGENT_1 request. -/
theorem wsc_primary_pool_characterization_witness :
    buildReadyUsers (readyInteractions [(8, interA2), (9, interB1)]) ≠ [] ∧
    ((({} : FSState).select_next_requests [reqPa, reqCb]
        [(8, interA2), (9, interB1)] 0 1000 1).1 ≠ []) ∧
    (∃ uid inter req,
      argminKey (counterD ({} : FSState).service)
        ((buildReadyUsers (readyInteractions [(8, interA2), (9, interB1)])).map Prod.fst)
          = some uid ∧
      (buildReadyUsers (readyInteractions [(8, interA2), (9, interB1)])).lookup uid
          = some inter ∧
      inter.requests.get? inter.next_index = some req ∧
      ((({} : FSState).select_next_requests [reqPa, reqCb]
          [(8, interA2), (9, interB1)] 0 1000 1).1).head? = some req) :=
  ⟨by decide, by decide,
    wsc_primary_pool_characterization.2 {} [reqPa, reqCb]
      [(8, interA2), (9, interB1)] 0 1000 1 (by decide) (by decide)⟩

/-- C5: OIT never throttles a continuation: should_throttle returns false
for every request whose stage is not USER_PROMPT, whatever the overload
state and window contents; consequently inject_requests never adds such a
request to throttled_requests (so it is never flagged nor counted). -/
theorem oit_never_throttles_continuations :
    (∀ (o : OIT) (req : Request) (kv_usage running : ℤ),
      req.stage ≠ InteractionStage.USER_PROMPT →
      (o.should_throttle req kv_usage running).1 = false) ∧
    (∀ (σ : Type) (s : Simulator σ) (rs : List Request),
      ∀ r ∈ (s.inject_requests rs).throttled_requests,
        r ∈ s.throttled_requests ∨ r.stage = InteractionStage.USER_PROMPT) := by
  exact ⟨shouldThrottle_false_of_nonprompt,
    fun σ s rs => inject_throttled_stage s rs⟩

/-- C5 witness: a concrete AGENT_1 request is not throttled by the
permanently overloaded OIT state. -/
theorem oit_never_throttles_continuations_witness :
    reqC.stage ≠ InteractionStage.USER_PROMPT ∧
    (oitHot.should_throttle reqC 100 5).1 = false := by
  exact ⟨by decide, oit_never_throttles_continuations.1 oitHot reqC 100 5 (by decide)⟩

/-- C6: in any engine step where active_decodes holds a request with
remaining_decode > 0 and the per-step token budget is at least 1, at least
one DECODE_STEP event is emitted, and any prefill chunk started in the same
step fits the budget left after the decodes (chunk_len + number of
DECODE_STEP events ≤ max_num_batched_tokens): decode-maximal scheduling. -/
theorem decode_priority_over_prefill (e : Engine)
    (hc : ∃ r ∈ e.active_decodes, 0 < r.remaining_decode)
    (hb : 1 ≤ e.max_num_batched_tokens) :
    (∃ ev ∈ (e.step).1, ev.event_type = EngineEventType.DECODE_STEP) ∧
    (∀ ev ∈ (e.step).1, ev.event_type = EngineEventType.PREFILL_CHUNK_STARTED →
      ∃ L, ev.chunk_len = some L ∧
        L + (((e.step).1.filter
          (fun x => decide (x.event_type = EngineEventType.DECODE_STEP))).length : ℤ)
          ≤ e.max_num_batched_tokens) :=
  ⟨step_emits_decode e hc hb, step_prefill_budget e⟩

/-- C6 witness: the concrete engine with one live decode and budget 4 emits
a decode event. -/
theorem decode_priority_over_prefill_witness :
    (∃ r ∈ engOver.active_decodes, 0 < r.remaining_decode) ∧
    1 ≤ engOver.max_num_batched_tokens ∧
    (∃ ev ∈ (engOver.step).1, ev.event_type = EngineEventType.DECODE_STEP) :=
  ⟨by decide, by decide,
    (decode_priority_over_prefill engOver (by decide) (by decide)).1⟩

/-- C7 counterexample: with every counter equal (all zero), user b's request
is first in the waiting queue and VTC picks b, although a is the
lexicographically smallest tied user; the spec-worded selection with the
lexicographic tie-break picks a's request instead. -/
theorem vtc_tie_break_not_lexicographic :
    ((({} : VTCState).select_next_requests [reqB0, reqA0] [] 0 200 1).1 = [reqB0]) ∧
    vtcSelectLex ({} : VTCState).counters 200 1 [reqB0, reqA0] 0 = [reqA0] ∧
    reqB0.user.user_id = "b" ∧ reqA0.user.user_id = "a" ∧
    counterD ({} : VTCState).counters "a" = counterD ({} : VTCState).counters "b" ∧
    strLtB "a" "b" = true := by decide

/-- C8: counter monotonicity.  The arrival lift sets C[u] to
max(C[u], min over populated counters), so it never decreases any counter;
on_prefill_added and on_decode_iteration add non-negative increments under
non-negative weights, priorities and token counts — for VTC and for WSC —
so no hook ever decreases any user's counter. -/
theorem counters_monotone :
    (∀ (st : VTCState) (r : Request), st.counter_lift = true →
      ∀ (p0 : String × ℚ) (rest0 : List (String × ℚ)), st.counters = p0 :: rest0 →
      counterD (st.on_request_arrival r).counters r.user.user_id
        = max (counterD st.counters r.user.user_id)
            (listMin (st.counters.map Prod.snd))) ∧
    (∀ (st : VTCState) (r : Request) (u : String),
      counterD st.counters u ≤ counterD (st.on_request_arrival r).counters u) ∧
    (∀ (st : VTCState) (r : Request) (u : String),
      0 ≤ st.w_p → 0 ≤ r.input_tokens → 0 ≤ r.system_tokens →
      counterD st.counters u ≤ counterD (st.on_prefill_added r).counters u) ∧
    (∀ (st : VTCState) (served : List Request) (u : String), 0 ≤ st.w_q →
      counterD st.counters u ≤ counterD (st.on_decode_iteration served).counters u) ∧
    (∀ (st : FSState) (r : Request) (u : String),
      counterD st.service u ≤ counterD (st.on_request_arrival r).service u) ∧
    (∀ (st : FSState) (r : Request) (u : String),
      0 ≤ st.alpha → 0 ≤ st.beta → 0 ≤ st.gamma → 0 ≤ r.user.priority →
      0 ≤ r.input_tokens → 0 ≤ r.system_tokens → appNonneg r.application →
      counterD st.service u ≤ counterD (st.on_prefill_added r).service u) ∧
    (∀ (st : FSState) (served : List Request) (u : String),
      0 ≤ st.alpha → 0 ≤ st.beta → 0 ≤ st.gamma →
      (∀ r ∈ served, 0 ≤ r.user.priority ∧ appNonneg r.application) →
      counterD st.service u ≤ counterD (st.on_decode_iteration served).service u) :=
  ⟨fun st r hl p0 rest0 hne => vtc_lift_eq st r hl p0 rest0 hne,
   vtc_arrival_mono,
   vtc_prefill_mono,
   fun st served u hw => vtc_decode_mono served st u hw,
   fs_arrival_mono,
   fs_prefill_mono,
   fun st served u ha hb hg hall => fs_decode_mono served st u ha hb hg hall⟩

/-- C8 witness: the lift equation at a state with one populated counter, and
the WSC prefill hook at concrete non-negative data. -/
theorem counters_monotone_witness :
    (vtcW.counter_lift = true ∧ vtcW.counters = ("b", 3) :: []) ∧
    counterD (vtcW.on_request_arrival reqA0).counters "a"
      = max (counterD vtcW.counters "a") (listMin (vtcW.counters.map Prod.snd)) ∧
    counterD ({} : FSState).service "a"
      ≤ counterD (({} : FSState).on_prefill_added reqC).service "a" := by
  refine ⟨⟨rfl, rfl⟩, ?_, ?_⟩
  · have := counters_monotone.1 vtcW reqA0 rfl ("b", 3) [] rfl
    rw [show reqA0.user.user_id = "a" from rfl] at this
    exact this
  · exact counters_monotone.2.2.2.2.2.1 {} reqC "a" (by norm_num) (by norm_num)
      (by norm_num) (by decide) (by decide) (by decide) (by decide)

/-- C7 amended: VTC selection equals the spec-worded selection loop with the
queue-order tie-break: repeatedly admit the earliest waiting request of the
user with the smallest counter, stopping at the first capacity violation;
ties on the smallest counter go to the user whose earliest waiting request
occurs first in the queue (head_by_user insertion order), not to the
lexicographically smallest user_id. -/
theorem vtc_select_queue_refinement (st : VTCState) (waiting : List Request)
    (interactions : List (ℤ × Interaction)) (kv_tokens kv_capacity max_batch : ℤ) :
    (st.select_next_requests waiting interactions kv_tokens kv_capacity max_batch).1
      = vtcSelectQueue st.counters kv_capacity max_batch waiting kv_tokens := by
  unfold VTCState.select_next_requests vtcSelectQueue
  exact vtc_loop_queue_eq st.counters kv_capacity max_batch waiting.length waiting kv_tokens []

/-- C9: the simulator run is a pure function of its input state: two runs
from equal states produce identical states, hence identical metrics
(the embedding required no nondeterministic primitive: all iteration orders,
map orders and tie-breaks are fixed). -/
theorem run_deterministic {σ : Type} (s1 s2 : Simulator σ) (h : s1 = s2) :
    s1.run = s2.run ∧ (s1.run).metrics = (s2.run).metrics := by
  subst h; exact ⟨rfl, rfl⟩

/-- C9 witness: the determinism theorem applied at a concrete simulator. -/
theorem run_deterministic_witness :
    simT = simT ∧ (simT.run = simT.run ∧ (simT.run).metrics = (simT.run).metrics) :=
  ⟨rfl, run_deterministic simT simT rfl⟩

end FairServe
